import Mathlib

/-!
# GlumBoot partition-table parser (drivers/mtd/glumboot.c)

A shallow embedding of `parse_glumboot_partitions` and the properties of its
search-and-decode algorithm.

Conventions of the embedding:
* machine integers are `Nat`/`Int`; every place where the C code computes in
  `uint32_t` is wrapped with `wrap32`, every `uint64_t` computation with `wrap64`;
* memory blocks (`readbuf`, `glumboot_names`) are functions from a byte index to
  a byte, the descriptor array is a function from an index to a descriptor;
* the three loops of the function are recursive definitions over a fuel
  argument that bounds the number of loop-condition evaluations; `none` means
  that the call did not return within that bound;
* the static arrays and the caller's `*pparts` are passed and returned
  explicitly (`glumboot_static`).
-/

namespace Glumboot

/-! ## Machine arithmetic and memory -/

/-- One byte of memory (`char`, `u8`). -/
abbrev u8 := Fin 256

/-- Truncation of an integer to `uint32_t`. -/
def wrap32 (x : Int) : Nat := (x % 4294967296).toNat

/-- Truncation of an integer to `uint64_t`. -/
def wrap64 (x : Int) : Nat := (x % 18446744073709551616).toNat

/-- The `len` bytes of `buf` that start at index `start`. -/
def mem_bytes (buf : Nat → u8) (start len : Nat) : List u8 :=
  (List.range len).map (fun i => buf (start + i))

/-- A `u32` load at byte index `i`; the target (ARM) and the on-medium format are
little-endian. -/
def le32 (buf : Nat → u8) (i : Nat) : Nat :=
  (buf i).val + 256 * (buf (i + 1)).val + 65536 * (buf (i + 2)).val
    + 16777216 * (buf (i + 3)).val

/-- The C call `memcpy(dst + d, src + s, n)`. -/
def memcpy (dst : Nat → u8) (d : Nat) (src : Nat → u8) (s n : Nat) : Nat → u8 :=
  fun i => if d ≤ i ∧ i < d + n then src (s + (i - d)) else dst i

/-- The C store `mem[k] = v`. -/
def store {α : Type} (mem : Nat → α) (k : Nat) (v : α) : Nat → α :=
  fun i => if i = k then v else mem i

/-- The NUL-terminated string that starts at `mem + p`, read within the next
`bound` bytes. -/
def cstr (mem : Nat → u8) (p : Nat) : Nat → List u8
  | 0 => []
  | bound + 1 => if mem p = 0 then [] else mem p :: cstr mem (p + 1) bound

/-! ## Constants and on-medium layout -/

def GLUMBOOT_MAX_NR_PARTS : Nat := 10

/-- Size of `struct glumboot_partition_type`: `char name[20]` and three `u32`. -/
def sizeof_partition_type : Nat := 20 + 4 + 4 + 4

/-- Size of `struct glumboot_partition_table` (the flexible array member adds
nothing): `magic[8]`, `reserved__1[4]`, two `u32`, `reserved__2[12]`. -/
def sizeof_partition_table : Nat := 8 + 4 + 4 + 4 + 12

/-- Length of the static buffer `glumboot_names`. -/
def sizeof_glumboot_names : Nat := GLUMBOOT_MAX_NR_PARTS * 20

def EIO : Int := 5
def ENOMEM : Int := 12
def ENOENT : Int := 2
def EFAULT : Int := 14
/-- The string `magic[] = "glumboot"` without its terminator (`strlen` bytes). -/
def magic : List u8 := [0x67, 0x6c, 0x75, 0x6d, 0x62, 0x6f, 0x6f, 0x74]

/-- Field `table->partition_count` (byte offset 12). -/
def partition_count (readbuf : Nat → u8) : Nat := le32 readbuf (8 + 4)

/-- Field `table->crc32` (byte offset 16). -/
def table_crc32 (readbuf : Nat → u8) : Nat := le32 readbuf (8 + 4 + 4)

/-- Byte index in `readbuf` of `table->partitions[n]`. -/
def partition_at (n : Nat) : Nat := sizeof_partition_table + n * sizeof_partition_type

/-- Field `table->partitions[n].offset`. -/
def partition_offset (readbuf : Nat → u8) (n : Nat) : Nat := le32 readbuf (partition_at n + 20)

/-- Field `table->partitions[n].size`. -/
def partition_size (readbuf : Nat → u8) (n : Nat) : Nat := le32 readbuf (partition_at n + 24)

/-! ## CRC-32 (lib/crc32.c) -/

def CRCPOLY_LE : Nat := 0xedb88320

/-- Modelled from the spec: one bit step of the reflected CRC-32 (the helper
`crc32_le` of lib/crc32.c is not part of the sources at hand; the spec asks for
the standard reflected polynomial). -/
def crc32_bit (crc : Nat) : Nat :=
  (crc >>> 1) ^^^ (if crc % 2 = 1 then CRCPOLY_LE else 0)

/-- Modelled from the spec: the byte step of `crc32_le`, `crc ^= *p++` followed
by eight bit steps. -/
def crc32_byte (crc : Nat) (b : u8) : Nat :=
  Nat.iterate crc32_bit 8 (crc ^^^ b.val)

/-- Modelled from the spec: `crc32_le(crc, p, len)`, the macro `crc32` of
linux/crc32.h, over the bytes `p`. -/
def crc32_le (crc : Nat) (p : List u8) : Nat :=
  p.foldl crc32_byte crc

/-- The value `checksum` of line 144:
`crc32(0xFFFFFFFF, table->partitions, partition_count * sizeof(record)) ^ 0xFFFFFFFF`
(the product is at most `10 * 32` where the source evaluates it). -/
def table_checksum (readbuf : Nat → u8) : Nat :=
  crc32_le 0xFFFFFFFF
      (mem_bytes readbuf sizeof_partition_table
        (partition_count readbuf * sizeof_partition_type))
    ^^^ 0xFFFFFFFF

/-! ## The medium and the parser state -/

/-- What one call `master->read(master, from, len, &retlen, readbuf)` gives
back: the return value, `retlen`, and the contents of `readbuf` when the call
returns (all of the buffer as the parser then sees it, also where the driver
wrote less than `len` bytes). The loop `magic_scan_carry`, which keeps the
buffer itself, takes from `buf` only the `retlen` bytes the driver delivers. -/
structure read_result where
  ret : Int
  retlen : Nat
  buf : Nat → u8

/-- The fields of `struct mtd_info` (linux/mtd/mtd.h) used by the parser: `size`
is a `uint64_t`, `erasesize` and `writesize` are `uint32_t`. `block_isbad` is a
function pointer that may be NULL; its result is read as a truth value. `read`
takes the address and the length. -/
structure mtd_info where
  size : Nat
  erasesize : Nat
  writesize : Nat
  block_isbad : Option (Nat → Bool)
  read : Nat → Nat → read_result

/-- The build-time configuration and the allocator: `offset` is
`CONFIG_MTD_GLUMBOOT_OFFSET` (an `int`), `SEARCH_DEPTH` is
`CONFIG_MTD_GLUMBOOT_SEARCH_DEPTH`. `vmalloc n` is `none` when the allocation
fails, otherwise the initial contents of the block. -/
structure glumboot_config where
  offset : Int
  SEARCH_DEPTH : Int
  vmalloc : Nat → Option (Nat → u8)

/-- The fields of `struct mtd_partition` (linux/mtd/partitions.h): `name` is
NULL (`none`) or points to `glumboot_names + k` (`some k`). -/
structure mtd_partition where
  name : Option Nat
  size : Nat
  offset : Nat
  mask_flags : Nat

/-- A value of the caller's `*pparts`: some pointer of the caller, or the
address of the static array `glumboot_partitions`. -/
inductive parts_ptr where
  | caller (v : Nat)
  | static_array
  deriving DecidableEq, Repr

/-- The memory the parser may write: the caller's `*pparts` and the two static
arrays. -/
structure glumboot_static where
  pparts : parts_ptr
  glumboot_partitions : Nat → mtd_partition
  glumboot_names : Nat → u8

/-- Result of the search part (lines 71-133). -/
inductive locate_result where
  | fail (ret : Int) (reads : List Nat)
  | found (search_addr : Nat) (readbuf : Nat → u8) (reads : List Nat)

/-- Result of a call: the return value, the memory after the call, and the
addresses passed to `master->read`, in call order. -/
structure parse_result where
  ret : Int
  st : glumboot_static
  reads : List Nat

/-! ## The function -/

/-- Lines 74-82: the bad-block loop of the backward search. `some none` is the
exit through `nogood`. -/
def skip_bad_backward (master : mtd_info) (search_addr_limit : Nat) :
    Nat → Nat → Option (Option Nat)
  | 0, _ => none
  | fuel + 1, search_addr =>
    match master.block_isbad with
    | none => some (some search_addr)
    | some isbad =>
      if isbad search_addr then
        if search_addr = 0 ∨ search_addr = search_addr_limit then some none
        else skip_bad_backward master search_addr_limit fuel
          (wrap32 (search_addr - master.erasesize))
      else some (some search_addr)

/-- Lines 86-91: the bad-block loop of the forward search. The predicate is
asked about `offset`, as in the source. -/
def skip_bad_forward (cfg : glumboot_config) (master : mtd_info) (search_addr_limit : Nat) :
    Nat → Nat → Option (Option Nat)
  | 0, _ => none
  | fuel + 1, search_addr =>
    match master.block_isbad with
    | none => some (some search_addr)
    | some isbad =>
      if isbad cfg.offset.toNat then
        if wrap32 (search_addr + master.erasesize) = master.size
            ∨ wrap32 (search_addr + master.erasesize) = search_addr_limit then some none
        else skip_bad_forward cfg master search_addr_limit fuel
          (wrap32 (search_addr + master.erasesize))
      else some (some search_addr)

/-- Lines 72-73 and 84-85: the first `search_addr`. -/
def search_start (cfg : glumboot_config) (master : mtd_info) : Nat :=
  if cfg.offset < 0 then
    wrap32 (wrap64 (master.size - wrap32 (-cfg.offset * master.erasesize)))
  else
    wrap32 (cfg.offset * master.erasesize)

/-- Lines 73 and 85: `search_addr_limit`. -/
def search_limit (cfg : glumboot_config) (master : mtd_info) : Nat :=
  if cfg.offset < 0 then
    wrap32 (search_start cfg master - wrap32 (cfg.SEARCH_DEPTH * master.erasesize))
  else
    wrap32 (cfg.SEARCH_DEPTH * master.erasesize)

/-- Lines 94-95: the size of the read buffer. -/
def glumboot_alloc (master : mtd_info) : Nat :=
  (((sizeof_partition_table + GLUMBOOT_MAX_NR_PARTS * sizeof_partition_type)
      / master.writesize) + 1) * master.writesize

/-- Lines 123-126: one step to the next block. -/
def search_next_block (cfg : glumboot_config) (master : mtd_info) (search_addr : Nat) : Nat :=
  if cfg.offset < 0 then wrap32 (search_addr - master.erasesize)
  else wrap32 (search_addr + master.erasesize)

/-- Line 114: `!memcmp(readbuf, magic, strlen(magic))`. -/
def magic_match (readbuf : Nat → u8) : Bool :=
  mem_bytes readbuf 0 magic.length = magic

/-- Lines 107-127: the probe loop. Gives `search_addr` and `readbuf` at loop
exit and the list of addresses read. What a read leaves in the buffer is taken
from the medium as a function of the address; that describes every single run,
and it is the run of `magic_scan_carry` when reads deliver the whole buffer
(`parse_carry_of_full_reads`). Runs on two media are compared with
`magic_scan_carry`. -/
def magic_scan (cfg : glumboot_config) (master : mtd_info) (alloc search_addr_limit : Nat) :
    Nat → Nat → (Nat → u8) → List Nat → Option (Nat × (Nat → u8) × List Nat)
  | 0, _, _, _ => none
  | fuel + 1, search_addr, readbuf, reads =>
    if search_addr ≠ 0 ∧ search_addr ≠ master.size ∧ search_addr ≠ search_addr_limit then
      let r := master.read search_addr alloc
      if r.ret ≠ 0 ∨ r.retlen < 8 then
        magic_scan cfg master alloc search_addr_limit fuel
          (search_next_block cfg master search_addr) r.buf (reads ++ [search_addr])
      else if magic_match r.buf then
        some (search_addr, r.buf, reads ++ [search_addr])
      else
        magic_scan cfg master alloc search_addr_limit fuel
          (search_next_block cfg master search_addr) r.buf (reads ++ [search_addr])
    else some (search_addr, readbuf, reads)

/-- Lines 71-92: the start address after the bad-block loop of the configured
direction. -/
def glumboot_align (fuel : Nat) (cfg : glumboot_config) (master : mtd_info) :
    Option (Option Nat) :=
  if cfg.offset < 0 then
    skip_bad_backward master (search_limit cfg master) fuel (search_start cfg master)
  else
    skip_bad_forward cfg master (search_limit cfg master) fuel (search_start cfg master)

/-- Lines 71-133: everything up to the located table. A `writesize` of zero
divides by zero at line 95; no result is given for it. -/
def glumboot_locate (fuel : Nat) (cfg : glumboot_config) (master : mtd_info) :
    Option locate_result :=
  match glumboot_align fuel cfg master with
  | none => none
  | some none => some (.fail (- EIO) [])
  | some (some search_addr) =>
    if master.writesize = 0 then none
    else
      match cfg.vmalloc (glumboot_alloc master) with
      | none => some (.fail (-ENOMEM) [])
      | some readbuf =>
        match magic_scan cfg master (glumboot_alloc master) (search_limit cfg master)
            fuel search_addr readbuf [] with
        | none => none
        | some (search_addr, readbuf, reads) =>
          if search_addr = 0 ∨ search_addr = master.size
              ∨ search_addr = search_limit cfg master then
            some (.fail (-ENOENT) reads)
          else some (.found search_addr readbuf reads)

/-- Lines 157-168: the body of the copy loop for record `n`; `name` is
`glumboot_names + 16 * n` and `ptn` is `glumboot_partitions + n`. -/
def materialise_step (readbuf : Nat → u8) (st : glumboot_static) (n : Nat) : glumboot_static :=
  { st with
    glumboot_names := store (memcpy st.glumboot_names (16 * n) readbuf (partition_at n) 19)
      (16 * n + 20) 0
    glumboot_partitions := store st.glumboot_partitions n
      { st.glumboot_partitions n with
        name := some (16 * n)
        offset := partition_offset readbuf n
        size := partition_size readbuf n } }

/-- Lines 154-169: the copy loop over `n = 0 .. count - 1`. -/
def materialise (readbuf : Nat → u8) (count : Nat) (st : glumboot_static) : glumboot_static :=
  (List.range count).foldl (materialise_step readbuf) st

/-- Lines 135-173: validation and copy of the located table; gives `ret` and
the memory after it. -/
def glumboot_decode (readbuf : Nat → u8) (st : glumboot_static) : Int × glumboot_static :=
  if partition_count readbuf > GLUMBOOT_MAX_NR_PARTS then (-EFAULT, st)
  else if table_checksum readbuf ≠ table_crc32 readbuf then (-EFAULT, st)
  else
    (partition_count readbuf,
      { materialise readbuf (partition_count readbuf) st with pparts := .static_array })

/-- The function `parse_glumboot_partitions(master, pparts, origin)`; `origin`
is not used by the source. -/
def parse_glumboot_partitions (fuel : Nat) (cfg : glumboot_config) (master : mtd_info)
    (st : glumboot_static) : Option parse_result :=
  match glumboot_locate fuel cfg master with
  | none => none
  | some (.fail ret reads) => some ⟨ret, st, reads⟩
  | some (.found _ readbuf reads) =>
    some ⟨(glumboot_decode readbuf st).1, (glumboot_decode readbuf st).2, reads⟩

/-! ## The function with the read buffer carried from read to read -/

/-- The read buffer after a read with outcome `r` of up to `len` bytes: the
driver has written the first `retlen` bytes it delivers, the rest of the buffer
is as the previous read (or the allocator) left it. -/
def deliver (readbuf : Nat → u8) (r : read_result) (len : Nat) : Nat → u8 :=
  fun i => if i < r.retlen ∧ i < len then r.buf i else readbuf i

/-- Lines 107-127 with the one buffer of line 98 carried from read to read:
the probe loop as `magic_scan`, but a read only overwrites the bytes it
delivers (`deliver`). -/
def magic_scan_carry (cfg : glumboot_config) (master : mtd_info)
    (alloc search_addr_limit : Nat) :
    Nat → Nat → (Nat → u8) → List Nat → Option (Nat × (Nat → u8) × List Nat)
  | 0, _, _, _ => none
  | fuel + 1, search_addr, readbuf, reads =>
    if search_addr ≠ 0 ∧ search_addr ≠ master.size ∧ search_addr ≠ search_addr_limit then
      let r := master.read search_addr alloc
      if r.ret ≠ 0 ∨ r.retlen < 8 then
        magic_scan_carry cfg master alloc search_addr_limit fuel
          (search_next_block cfg master search_addr) (deliver readbuf r alloc)
          (reads ++ [search_addr])
      else if magic_match (deliver readbuf r alloc) then
        some (search_addr, deliver readbuf r alloc, reads ++ [search_addr])
      else
        magic_scan_carry cfg master alloc search_addr_limit fuel
          (search_next_block cfg master search_addr) (deliver readbuf r alloc)
          (reads ++ [search_addr])
    else some (search_addr, readbuf, reads)

/-- Lines 71-133 with the read buffer carried from read to read. -/
def glumboot_locate_carry (fuel : Nat) (cfg : glumboot_config) (master : mtd_info) :
    Option locate_result :=
  match glumboot_align fuel cfg master with
  | none => none
  | some none => some (.fail (- EIO) [])
  | some (some search_addr) =>
    if master.writesize = 0 then none
    else
      match cfg.vmalloc (glumboot_alloc master) with
      | none => some (.fail (-ENOMEM) [])
      | some readbuf =>
        match magic_scan_carry cfg master (glumboot_alloc master) (search_limit cfg master)
            fuel search_addr readbuf [] with
        | none => none
        | some (search_addr, readbuf, reads) =>
          if search_addr = 0 ∨ search_addr = master.size
              ∨ search_addr = search_limit cfg master then
            some (.fail (-ENOENT) reads)
          else some (.found search_addr readbuf reads)

/-- The function `parse_glumboot_partitions` with the read buffer carried from
read to read. -/
def parse_glumboot_partitions_carry (fuel : Nat) (cfg : glumboot_config) (master : mtd_info)
    (st : glumboot_static) : Option parse_result :=
  match glumboot_locate_carry fuel cfg master with
  | none => none
  | some (.fail ret reads) => some ⟨ret, st, reads⟩
  | some (.found _ readbuf reads) =>
    some ⟨(glumboot_decode readbuf st).1, (glumboot_decode readbuf st).2, reads⟩

/-! ## Reading the output -/

/-- The string a consumer reads through `glumboot_partitions[n].name`. -/
def descriptor_name (st : glumboot_static) (n : Nat) : List u8 :=
  match (st.glumboot_partitions n).name with
  | none => []
  | some p => cstr st.glumboot_names p (sizeof_glumboot_names - p)

/-- The first `count` descriptors as `(name, offset, size)` tuples. -/
def descriptors (st : glumboot_static) (count : Nat) : List (List u8 × Nat × Nat) :=
  (List.range count).map (fun n =>
    (descriptor_name st n, (st.glumboot_partitions n).offset, (st.glumboot_partitions n).size))

/-! ## Auxiliary definitions for the statements -/

/-- The medium `master` with its read operation replaced by `f`. -/
def set_read (master : mtd_info) (f : Nat → Nat → read_result) : mtd_info :=
  { master with read := f }

/-- The reads issued by the search part. -/
def locate_reads : locate_result → List Nat
  | .fail _ reads => reads
  | .found _ _ reads => reads

/-- The three values of `search_addr` at which the probe loop stops. -/
abbrev is_stop (cfg : glumboot_config) (master : mtd_info) (x : Nat) : Prop :=
  x = 0 ∨ x = master.size ∨ x = search_limit cfg master

/-- The address `k` erase units below the start of a backward search. -/
def backward_addr (cfg : glumboot_config) (master : mtd_info) (k : Nat) : Nat :=
  wrap32 (search_start cfg master - k * master.erasesize)

/-- The name field of record `n` read as a NUL-terminated string within its
twenty bytes. -/
def record_name (readbuf : Nat → u8) (n : Nat) : List u8 :=
  cstr readbuf (partition_at n) 20

/-- The address `k` erase units above the start of a forward search. -/
def forward_addr (cfg : glumboot_config) (master : mtd_info) (k : Nat) : Nat :=
  wrap32 (search_start cfg master + k * master.erasesize)

/-- What the bad-block predicate of the medium reports for the unit at `x`;
a medium without predicate reports no unit. -/
def reported_bad (master : mtd_info) (x : Nat) : Bool :=
  match master.block_isbad with
  | none => false
  | some isbad => isbad x

/-! ## Encoding of tables and example media -/

/-- The four bytes of a little-endian `u32`. -/
def enc32 (x : Nat) : List u8 :=
  [Fin.ofNat x, Fin.ofNat (x / 256), Fin.ofNat (x / 65536), Fin.ofNat (x / 16777216)]

/-- One 32-byte record: the name NUL-padded into its 20-byte field, offset, size, and flags zero. -/
def encode_record (r : List u8 × Nat × Nat) : List u8 :=
  (r.1 ++ List.replicate (20 - r.1.length) 0).take 20 ++ enc32 r.2.1 ++ enc32 r.2.2 ++ enc32 0

/-- The record array. -/
def encode_records (rs : List (List u8 × Nat × Nat)) : List u8 :=
  (rs.map encode_record).flatten

/-- The 32-byte header with the given count and checksum, reserved bytes zero. -/
def encode_header (count crc : Nat) : List u8 :=
  magic ++ List.replicate 4 0 ++ enc32 count ++ enc32 crc ++ List.replicate 12 0

/-- A table with `partition_count` equal to the number of records and `crc32` equal to the CRC-32 of the record array. -/
def encode_table (rs : List (List u8 × Nat × Nat)) : List u8 :=
  encode_header rs.length (crc32_le 0xFFFFFFFF (encode_records rs) ^^^ 0xFFFFFFFF)
    ++ encode_records rs

/-- The contents of an erase unit that starts with the bytes `l`; the rest is erased flash (0xFF). -/
def unit_bytes (l : List u8) : Nat → u8 := fun i => l.getD i 0xFF

/-- A medium without bad-block predicate whose reads always succeed in full; `units` lists the written units by address. -/
def flash (size erasesize writesize : Nat) (units : List (Nat × List u8)) : mtd_info :=
  { size := size, erasesize := erasesize, writesize := writesize, block_isbad := none,
    read := fun a len => ⟨0, len, unit_bytes ((units.lookup a).getD [])⟩ }

/-- The static memory at module load (zero-initialised) and a caller pointer. -/
def fresh_static : glumboot_static :=
  { pparts := .caller 0, glumboot_partitions := fun _ => ⟨none, 0, 0, 0⟩, glumboot_names := fun _ => 0 }

/-- Anchor at unit 1, search depth 4, allocation succeeds. -/
def cfg_forward : glumboot_config := { offset := 1, SEARCH_DEPTH := 4, vmalloc := fun _ => some (fun _ => 0) }

/-- The bytes "boot". -/
def name_boot : List u8 := [0x62, 0x6f, 0x6f, 0x74]

/-- The bytes "system". -/
def name_system : List u8 := [0x73, 0x79, 0x73, 0x74, 0x65, 0x6d]

/-- The table of the example: ("boot", 0x0, 0x100000) and ("system", 0x100000, 0x300000). -/
def table_boot_system : List u8 := encode_table [(name_boot, 0, 0x100000), (name_system, 0x100000, 0x300000)]

/-- A 1 MiB medium with 128 KiB erase units and the example table at 0x20000. -/
def flash_boot_system : mtd_info := flash 0x100000 0x20000 2048 [(0x20000, table_boot_system)]

/-- Eleven records named "p", each of size 0x1000. -/
def eleven_records : List (List u8 × Nat × Nat) :=
  (List.range 11).map (fun n => ([0x70], n * 0x1000, 0x1000))

/-- A medium whose unit at 0x20000 declares eleven records. -/
def flash_eleven : mtd_info := flash 0x100000 0x20000 2048 [(0x20000, encode_table eleven_records)]

/-- The table of `table_boot_system` with a stored checksum of zero. -/
def table_bad_crc : List u8 :=
  encode_header 2 0 ++ encode_records [(name_boot, 0, 0x100000), (name_system, 0x100000, 0x300000)]

/-- A medium with a table of wrong checksum at 0x20000 and a valid table at 0x40000. -/
def flash_bad_then_good : mtd_info :=
  flash 0x100000 0x20000 2048 [(0x20000, table_bad_crc), (0x40000, table_boot_system)]

/-- A medium that is erased throughout. -/
def flash_empty : mtd_info := flash 0x100000 0x20000 2048 []

/-- The sixteen bytes "ABCDEFGHIJKLMNOP". -/
def name_sixteen : List u8 :=
  [0x41, 0x42, 0x43, 0x44, 0x45, 0x46, 0x47, 0x48, 0x49, 0x4a, 0x4b, 0x4c, 0x4d, 0x4e, 0x4f, 0x50]

/-- A table whose first record has a name of sixteen bytes. -/
def table_sixteen : List u8 :=
  encode_table [(name_sixteen, 0, 0x100000), (name_system, 0x100000, 0x300000)]

/-- A medium with `table_sixteen` at 0x20000. -/
def flash_sixteen : mtd_info := flash 0x100000 0x20000 2048 [(0x20000, table_sixteen)]

/-- Two records whose name fields hold twenty bytes "A" and twenty bytes "B". -/
def table_full_names : List u8 :=
  encode_table [(List.replicate 20 0x41, 0, 0x100000), (List.replicate 20 0x42, 0x100000, 0x300000)]

/-- A medium with `table_full_names` at 0x20000. -/
def flash_full_names : mtd_info := flash 0x100000 0x20000 2048 [(0x20000, table_full_names)]

/-- Anchor three units before the end, search depth 10. -/
def cfg_backward : glumboot_config :=
  { offset := -3, SEARCH_DEPTH := 10, vmalloc := fun _ => some (fun _ => 0) }

/-- Anchor one unit before the end, search depth 4. -/
def cfg_backward_four : glumboot_config :=
  { offset := -1, SEARCH_DEPTH := 4, vmalloc := fun _ => some (fun _ => 0) }

/-- The medium of `flash_boot_system` with a bad-block predicate that reports
exactly the unit at 0x20000 as bad. -/
def flash_bad_anchor : mtd_info :=
  { flash_boot_system with block_isbad := some (fun x => decide (x = 0x20000)) }

/-- Anchor at unit 0, search depth 4. -/
def cfg_anchor_zero : glumboot_config :=
  { offset := 0, SEARCH_DEPTH := 4, vmalloc := fun _ => some (fun _ => 0) }

/-- A medium with the example table at address 0. -/
def flash_table_at_zero : mtd_info := flash 0x100000 0x20000 2048 [(0, table_boot_system)]

/-- The example table with the first name byte changed from "b" to "c". -/
def table_corrupted : List u8 := table_boot_system.set 32 0x63

/-- A medium with `table_corrupted` at 0x20000. -/
def flash_corrupted : mtd_info := flash 0x100000 0x20000 2048 [(0x20000, table_corrupted)]

/-- A medium with a write unit of one byte. -/
def flash_byte_writes : mtd_info := flash 0x100000 0x20000 1 []

/-- A table with the single record ("AAAAAAAAAAAAAAAAAAA", 0x0, 0x100000), a
name of nineteen bytes. -/
def table_nineteen : List u8 := encode_table [(List.replicate 19 0x41, 0, 0x100000)]

/-- A medium with `table_nineteen` at 0x20000. -/
def flash_nineteen : mtd_info := flash 0x100000 0x20000 2048 [(0x20000, table_nineteen)]

/-- The static memory as an earlier parse of the example table leaves it. -/
def static_after_boot_system : glumboot_static :=
  match parse_glumboot_partitions 2 cfg_forward flash_boot_system fresh_static with
  | some r => r.st
  | none => fresh_static

/-- Anchor seven units before the end, search depth 4. -/
def cfg_backward_seven : glumboot_config :=
  { offset := -7, SEARCH_DEPTH := 4, vmalloc := fun _ => some (fun _ => 0) }

/-- An erased 1 MiB medium whose predicate reports exactly the unit at 0x20000
as bad. -/
def flash_bad_low : mtd_info :=
  { flash_empty with block_isbad := some (fun x => decide (x = 0x20000)) }

/-- An erased 1 MiB medium whose predicate reports exactly the unit at 0xE0000
as bad. -/
def flash_bad_top : mtd_info :=
  { flash_empty with block_isbad := some (fun x => decide (x = 0xE0000)) }

/-- An erased medium with an erase size of zero. -/
def flash_zero_erase : mtd_info := flash 0x100000 0 1 []

/-- Anchor at unit 2, search depth 4. -/
def cfg_forward_two : glumboot_config :=
  { offset := 2, SEARCH_DEPTH := 4, vmalloc := fun _ => some (fun _ => 0) }

/-- Anchor at unit 4, search depth 4. -/
def cfg_forward_four : glumboot_config :=
  { offset := 4, SEARCH_DEPTH := 4, vmalloc := fun _ => some (fun _ => 0) }

set_option maxRecDepth 100000

/-- The copy loop over `c + 1` records is the loop over `c` records followed by the body for record `c`. -/
theorem materialise_succ (readbuf : Nat → u8) (c : Nat) (st : glumboot_static) :
    materialise readbuf (c + 1) st = materialise_step readbuf (materialise readbuf c st) c := by
  simp [materialise, List.range_succ, List.foldl_append]

/-- The copy loop over no record changes nothing. -/
theorem materialise_zero (readbuf : Nat → u8) (st : glumboot_static) :
    materialise readbuf 0 st = st := rfl

/-- The copy loop does not touch `*pparts`. -/
theorem materialise_pparts (readbuf : Nat → u8) (c : Nat) (st : glumboot_static) :
    (materialise readbuf c st).pparts = st.pparts := by
  induction c with
  | zero => rfl
  | succ c ih => rw [materialise_succ]; simpa [materialise_step] using ih

/-- The descriptor array after the copy loop: entries below `c` carry the name pointer, offset and size of their record, the others are as before. -/
theorem materialise_partitions (readbuf : Nat → u8) (c : Nat) (st : glumboot_static) (n : Nat) :
    (materialise readbuf c st).glumboot_partitions n =
      if n < c then
        { st.glumboot_partitions n with
          name := some (16 * n)
          offset := partition_offset readbuf n
          size := partition_size readbuf n }
      else st.glumboot_partitions n := by
  induction c with
  | zero => simp [materialise_zero]
  | succ c ih =>
    rw [materialise_succ]
    simp only [materialise_step, store]
    by_cases h : n = c
    · subst h
      simp [ih]
    · have h1 : (n < c + 1) = (n < c) := by
        apply propext; omega
      simp only [h, if_false, ih, h1]

/-- The first sixteen bytes of the name slot of record `n` after the copy loop are the first sixteen bytes of the name field of record `n`. -/
theorem materialise_names_head (readbuf : Nat → u8) (c : Nat) (st : glumboot_static)
    (n j : Nat) (hn : n < c) (hj : j < 16) :
    (materialise readbuf c st).glumboot_names (16 * n + j) = readbuf (partition_at n + j) := by
  induction c with
  | zero => omega
  | succ c ih =>
    rw [materialise_succ]
    simp only [materialise_step, store, memcpy]
    have h20 : ¬ (16 * n + j = 16 * c + 20) := by omega
    simp only [h20, if_false]
    by_cases h : n = c
    · subst h
      have : 16 * n ≤ 16 * n + j ∧ 16 * n + j < 16 * n + 19 := by omega
      simp [this]
    · have hlt : n < c := by omega
      have : ¬ (16 * c ≤ 16 * n + j ∧ 16 * n + j < 16 * c + 19) := by omega
      simp only [this, if_false]
      exact ih hlt

/-- A failed search is the result of the call, with the memory as it was. -/
theorem parse_of_fail (fuel : Nat) (cfg : glumboot_config) (master : mtd_info)
    (st : glumboot_static) (ret : Int) (reads : List Nat)
    (h : glumboot_locate fuel cfg master = some (.fail ret reads)) :
    parse_glumboot_partitions fuel cfg master st = some ⟨ret, st, reads⟩ := by
  simp [parse_glumboot_partitions, h]

/-- After a successful search the result of the call is that of the decoding part. -/
theorem parse_of_found (fuel : Nat) (cfg : glumboot_config) (master : mtd_info)
    (st : glumboot_static) (a : Nat) (readbuf : Nat → u8) (reads : List Nat)
    (h : glumboot_locate fuel cfg master = some (.found a readbuf reads)) :
    parse_glumboot_partitions fuel cfg master st =
      some ⟨(glumboot_decode readbuf st).1, (glumboot_decode readbuf st).2, reads⟩ := by
  simp [parse_glumboot_partitions, h]

/-- Line 138: more than ten declared records. -/
theorem decode_too_many (readbuf : Nat → u8) (st : glumboot_static)
    (h : GLUMBOOT_MAX_NR_PARTS < partition_count readbuf) :
    glumboot_decode readbuf st = (-EFAULT, st) := by
  simp [glumboot_decode, h]

/-- Line 148: the stored and the computed checksum differ. -/
theorem decode_bad_crc (readbuf : Nat → u8) (st : glumboot_static)
    (h : table_checksum readbuf ≠ table_crc32 readbuf) :
    glumboot_decode readbuf st = (-EFAULT, st) := by
  simp [glumboot_decode, h]

/-- Lines 154-172: an accepted table. -/
theorem decode_ok (readbuf : Nat → u8) (st : glumboot_static)
    (hc : partition_count readbuf ≤ GLUMBOOT_MAX_NR_PARTS)
    (h : table_checksum readbuf = table_crc32 readbuf) :
    glumboot_decode readbuf st = (((partition_count readbuf : Nat) : Int),
      { materialise readbuf (partition_count readbuf) st with pparts := .static_array }) := by
  have : ¬ (GLUMBOOT_MAX_NR_PARTS < partition_count readbuf) := by omega
  simp [glumboot_decode, h, this]

/-- What the probe loop leaves behind when it stops at an address that is none
of the three stop values: the last read was at that address, it succeeded, and
the buffer holds what it delivered, starting with the magic tag. -/
theorem magic_scan_found (cfg : glumboot_config) (master : mtd_info) (alloc limit : Nat) :
    ∀ (fuel search_addr : Nat) (readbuf : Nat → u8) (reads : List Nat)
      (a : Nat) (b : Nat → u8) (rs : List Nat),
      magic_scan cfg master alloc limit fuel search_addr readbuf reads = some (a, b, rs) →
      ¬ (a = 0 ∨ a = master.size ∨ a = limit) →
      b = (master.read a alloc).buf ∧ magic_match b = true ∧ rs.getLast? = some a
        ∧ (master.read a alloc).ret = 0 ∧ 8 ≤ (master.read a alloc).retlen := by
  intro fuel
  induction fuel with
  | zero => intro _ _ _ a b rs h; simp [magic_scan] at h
  | succ fuel ih =>
    intro search_addr readbuf reads a b rs h hns
    rw [magic_scan] at h
    by_cases hstop : search_addr ≠ 0 ∧ search_addr ≠ master.size ∧ search_addr ≠ limit
    · rw [if_pos hstop] at h
      by_cases hfail : (master.read search_addr alloc).ret ≠ 0 ∨ (master.read search_addr alloc).retlen < 8
      · simp only [hfail, if_true] at h
        exact ih _ _ _ a b rs h hns
      · simp only [hfail, if_false] at h
        by_cases hm : magic_match (master.read search_addr alloc).buf = true
        · simp only [hm, if_true] at h
          simp only [Option.some.injEq, Prod.mk.injEq] at h
          obtain ⟨h1, h2, h3⟩ := h
          subst h1 h2 h3
          push_neg at hfail
          refine ⟨rfl, hm, by simp, hfail.1, hfail.2⟩
        · simp only [hm] at h
          exact ih _ _ _ a b rs h hns
    · rw [if_neg hstop] at h
      simp only [Option.some.injEq, Prod.mk.injEq] at h
      obtain ⟨h1, h2, h3⟩ := h
      subst h1
      exfalso; apply hns
      by_contra hcon
      push_neg at hcon
      exact hstop hcon

/-- A located table: the buffer is what the read at the located address delivered, it starts with the magic tag, that read was the last one issued, and the address is no stop value. -/
theorem locate_found (fuel : Nat) (cfg : glumboot_config) (master : mtd_info)
    (a : Nat) (readbuf : Nat → u8) (reads : List Nat)
    (h : glumboot_locate fuel cfg master = some (.found a readbuf reads)) :
    readbuf = (master.read a (glumboot_alloc master)).buf ∧ magic_match readbuf = true
      ∧ reads.getLast? = some a
      ∧ (master.read a (glumboot_alloc master)).ret = 0
      ∧ 8 ≤ (master.read a (glumboot_alloc master)).retlen
      ∧ ¬ (a = 0 ∨ a = master.size ∨ a = search_limit cfg master) := by
  unfold glumboot_locate at h
  split at h
  · simp at h
  · simp at h
  · split at h
    · simp at h
    · split at h
      · simp at h
      · split at h
        · simp at h
        · rename_i x sa b rs hscan
          split at h
          · simp at h
          · rename_i hns
            simp only [Option.some.injEq, locate_result.found.injEq] at h
            obtain ⟨h1, h2, h3⟩ := h
            subst h1 h2 h3
            have := magic_scan_found cfg master _ _ _ _ _ _ _ _ _ hscan hns
            exact ⟨this.1, this.2.1, this.2.2.1, this.2.2.2.1, this.2.2.2.2, hns⟩

/-- The three failures of the search part. -/
theorem locate_fail_ret (fuel : Nat) (cfg : glumboot_config) (master : mtd_info)
    (ret : Int) (reads : List Nat)
    (h : glumboot_locate fuel cfg master = some (.fail ret reads)) :
    ret = - EIO ∨ ret = -ENOMEM ∨ ret = -ENOENT := by
  unfold glumboot_locate at h
  split at h
  · simp at h
  · simp only [Option.some.injEq, locate_result.fail.injEq] at h
    exact Or.inl h.1.symm
  · split at h
    · simp at h
    · split at h
      · simp only [Option.some.injEq, locate_result.fail.injEq] at h
        exact Or.inr (Or.inl h.1.symm)
      · split at h
        · simp at h
        · split at h
          · simp only [Option.some.injEq, locate_result.fail.injEq] at h
            exact Or.inr (Or.inr h.1.symm)
          · simp at h

/-- The bad-block loops do not depend on the read operation. -/
theorem align_set_read (fuel : Nat) (cfg : glumboot_config) (master : mtd_info)
    (f : Nat → Nat → read_result) :
    glumboot_align fuel cfg (set_read master f) = glumboot_align fuel cfg master := by
  have hb : ∀ lim n x, skip_bad_backward (set_read master f) lim n x
      = skip_bad_backward master lim n x := by
    intro lim n
    induction n with
    | zero => intro x; rfl
    | succ n ih =>
      intro x
      rw [skip_bad_backward, skip_bad_backward]
      have : (set_read master f).block_isbad = master.block_isbad := rfl
      rw [this]
      cases master.block_isbad with
      | none => rfl
      | some isbad =>
        simp only
        have he : (set_read master f).erasesize = master.erasesize := rfl
        rw [he, ih]
  have hf : ∀ lim n x, skip_bad_forward cfg (set_read master f) lim n x
      = skip_bad_forward cfg master lim n x := by
    intro lim n
    induction n with
    | zero => intro x; rfl
    | succ n ih =>
      intro x
      rw [skip_bad_forward, skip_bad_forward]
      have : (set_read master f).block_isbad = master.block_isbad := rfl
      rw [this]
      cases master.block_isbad with
      | none => rfl
      | some isbad =>
        simp only
        have he : (set_read master f).erasesize = master.erasesize := rfl
        have hs : (set_read master f).size = master.size := rfl
        rw [he, hs, ih]
  have hl : search_limit cfg (set_read master f) = search_limit cfg master := rfl
  have hs : search_start cfg (set_read master f) = search_start cfg master := rfl
  unfold glumboot_align
  rw [hl, hs, hb, hf]

/-- The probe loop only appends to the list of reads. -/
theorem magic_scan_reads_extend (cfg : glumboot_config) (master : mtd_info) (alloc limit : Nat) :
    ∀ (fuel search_addr : Nat) (readbuf : Nat → u8) (reads : List Nat)
      (x : Nat) (b : Nat → u8) (rs : List Nat),
      magic_scan cfg master alloc limit fuel search_addr readbuf reads = some (x, b, rs) →
      ∃ t, rs = reads ++ t := by
  intro fuel
  induction fuel with
  | zero => intro _ _ _ x b rs h; simp [magic_scan] at h
  | succ fuel ih =>
    intro search_addr readbuf reads x b rs h
    rw [magic_scan] at h
    by_cases hstop : search_addr ≠ 0 ∧ search_addr ≠ master.size ∧ search_addr ≠ limit
    · rw [if_pos hstop] at h
      by_cases hfail : (master.read search_addr alloc).ret ≠ 0
          ∨ (master.read search_addr alloc).retlen < 8
      · simp only [hfail, if_true] at h
        obtain ⟨t, ht⟩ := ih _ _ _ x b rs h
        exact ⟨search_addr :: t, by rw [ht]; simp⟩
      · simp only [hfail, if_false] at h
        by_cases hm : magic_match (master.read search_addr alloc).buf = true
        · simp only [hm, if_true, Option.some.injEq, Prod.mk.injEq] at h
          exact ⟨[search_addr], h.2.2.symm⟩
        · simp only [hm] at h
          obtain ⟨t, ht⟩ := ih _ _ _ x b rs h
          exact ⟨search_addr :: t, by rw [ht]; simp⟩
    · rw [if_neg hstop] at h
      simp only [Option.some.injEq, Prod.mk.injEq] at h
      exact ⟨[], by rw [← h.2.2]; simp⟩

/-- The probe loop gives the same result on every medium that answers the
reads it issued in the same way. -/
theorem magic_scan_set_read (cfg : glumboot_config) (master : mtd_info) (alloc limit : Nat)
    (f : Nat → Nat → read_result) :
    ∀ (fuel search_addr : Nat) (readbuf : Nat → u8) (reads : List Nat)
      (x : Nat) (b : Nat → u8) (rs : List Nat),
      magic_scan cfg master alloc limit fuel search_addr readbuf reads = some (x, b, rs) →
      (∀ y, y ∈ rs → f y alloc = master.read y alloc) →
      magic_scan cfg (set_read master f) alloc limit fuel search_addr readbuf reads
        = some (x, b, rs) := by
  intro fuel
  induction fuel with
  | zero => intro _ _ _ x b rs h; simp [magic_scan] at h
  | succ fuel ih =>
    intro search_addr readbuf reads x b rs h hsame
    have hsize : (set_read master f).size = master.size := rfl
    have hnext : ∀ y, search_next_block cfg (set_read master f) y
        = search_next_block cfg master y := fun _ => rfl
    have hrd : ∀ y, (set_read master f).read y alloc = f y alloc := fun _ => rfl
    rw [magic_scan] at h
    rw [magic_scan, hsize, hnext, hrd]
    by_cases hstop : search_addr ≠ 0 ∧ search_addr ≠ master.size ∧ search_addr ≠ limit
    · rw [if_pos hstop] at h
      rw [if_pos hstop]
      by_cases hfail : (master.read search_addr alloc).ret ≠ 0
          ∨ (master.read search_addr alloc).retlen < 8
      · simp only [hfail, if_true] at h
        obtain ⟨t, ht⟩ := magic_scan_reads_extend cfg master alloc limit _ _ _ _ x b rs h
        have hmem : search_addr ∈ rs := by rw [ht]; simp
        rw [hsame _ hmem]
        simp only [hfail, if_true]
        exact ih _ _ _ x b rs h hsame
      · simp only [hfail, if_false] at h
        by_cases hm : magic_match (master.read search_addr alloc).buf = true
        · simp only [hm, if_true] at h
          have hmem : search_addr ∈ rs := by
            simp only [Option.some.injEq, Prod.mk.injEq] at h
            rw [← h.2.2]; simp
          rw [hsame _ hmem]
          simp only [hfail, if_false, hm, if_true]
          exact h
        · simp only [hm] at h
          obtain ⟨t, ht⟩ := magic_scan_reads_extend cfg master alloc limit _ _ _ _ x b rs h
          have hmem : search_addr ∈ rs := by rw [ht]; simp
          rw [hsame _ hmem]
          simp only [hfail, if_false, hm]
          exact ih _ _ _ x b rs h hsame
    · rw [if_neg hstop] at h
      rw [if_neg hstop]
      exact h

/-- The search part gives the same result on every medium of the same
geometry that answers the reads it issued in the same way. -/
theorem locate_set_read (fuel : Nat) (cfg : glumboot_config) (master : mtd_info)
    (f : Nat → Nat → read_result) (res : locate_result)
    (h : glumboot_locate fuel cfg master = some res)
    (hsame : ∀ y, y ∈ locate_reads res →
      f y (glumboot_alloc master) = master.read y (glumboot_alloc master)) :
    glumboot_locate fuel cfg (set_read master f) = some res := by
  unfold glumboot_locate at h ⊢
  rw [align_set_read]
  have hl : search_limit cfg (set_read master f) = search_limit cfg master := rfl
  have hw : (set_read master f).writesize = master.writesize := rfl
  have hsz : (set_read master f).size = master.size := rfl
  have hal : glumboot_alloc (set_read master f) = glumboot_alloc master := rfl
  rw [hl, hw, hsz, hal]
  cases hA : glumboot_align fuel cfg master with
  | none => rw [hA] at h; simp at h
  | some o =>
    rw [hA] at h
    cases o with
    | none => exact h
    | some sa =>
      simp only at h ⊢
      by_cases hz : master.writesize = 0
      · simp [hz] at h
      · simp only [hz, if_false] at h ⊢
        cases hV : cfg.vmalloc (glumboot_alloc master) with
        | none => rw [hV] at h; exact h
        | some rb =>
          rw [hV] at h
          simp only at h ⊢
          cases hS : magic_scan cfg master (glumboot_alloc master) (search_limit cfg master)
              fuel sa rb [] with
          | none => rw [hS] at h; simp at h
          | some t =>
            obtain ⟨x, b, rs⟩ := t
            rw [hS] at h
            simp only at h
            have hrs : locate_reads res = rs := by
              by_cases hs : x = 0 ∨ x = master.size ∨ x = search_limit cfg master
              · simp only [hs, if_true, Option.some.injEq] at h
                rw [← h]; rfl
              · simp only [hs, if_false, Option.some.injEq] at h
                rw [← h]; rfl
            rw [magic_scan_set_read cfg master _ _ f fuel sa rb [] x b rs hS
              (fun y hy => hsame y (by rw [hrs]; exact hy))]
            exact h

/-- The value of a truncation to 32 bits. -/
theorem wrap32_cast (x : Int) : ((wrap32 x : Nat) : Int) = x % 4294967296 := by
  unfold wrap32
  omega

/-- Truncating the subtrahend first does not change a truncated difference. -/
theorem wrap32_sub_wrap32 (x y : Int) : wrap32 (x - wrap32 y) = wrap32 (x - y) := by
  have h := wrap32_cast y
  unfold wrap32 at *
  omega

/-- Truncating the minuend first does not change a truncated difference. -/
theorem wrap32_wrap32_sub (x y : Int) : wrap32 (wrap32 x - y) = wrap32 (x - y) := by
  have h := wrap32_cast x
  unfold wrap32 at *
  omega

/-- Truncation is idempotent. -/
theorem wrap32_idem (x : Int) : wrap32 (wrap32 x) = wrap32 x := by
  have h := wrap32_cast x
  unfold wrap32 at *
  omega

/-- A backward search starts at `search_start`. -/
theorem backward_addr_zero (cfg : glumboot_config) (master : mtd_info) (hneg : cfg.offset < 0) :
    backward_addr cfg master 0 = search_start cfg master := by
  unfold backward_addr search_start
  simp only [hneg, if_true, Nat.cast_zero, zero_mul, sub_zero]
  exact wrap32_idem _

/-- One backward step leads from the address `k` units below the start to the one `k + 1` units below. -/
theorem backward_addr_succ (cfg : glumboot_config) (master : mtd_info) (hneg : cfg.offset < 0)
    (k : Nat) :
    search_next_block cfg master (backward_addr cfg master k) = backward_addr cfg master (k + 1) := by
  unfold search_next_block backward_addr
  simp only [hneg, if_true]
  rw [wrap32_wrap32_sub]
  congr 1
  push_cast
  ring

/-- The address `SEARCH_DEPTH` units below the start of a backward search is `search_addr_limit`. -/
theorem backward_addr_depth (cfg : glumboot_config) (master : mtd_info) (hneg : cfg.offset < 0)
    (hdepth : 0 ≤ cfg.SEARCH_DEPTH) :
    backward_addr cfg master cfg.SEARCH_DEPTH.toNat = search_limit cfg master := by
  unfold backward_addr search_limit
  simp only [hneg, if_true]
  rw [wrap32_sub_wrap32, Int.toNat_of_nonneg hdepth]

/-- The probe loop on a stretch of `K` units none of which is a stop value or
delivers the magic tag, ending on a stop value: it reads exactly those `K`
units and leaves `search_addr` on the stop value. -/
theorem magic_scan_exhausts (cfg : glumboot_config) (master : mtd_info) (alloc limit : Nat)
    (hnomagic : ∀ x, magic_match (master.read x alloc).buf = false)
    (addr : Nat → Nat) (hnext : ∀ k, search_next_block cfg master (addr k) = addr (k + 1)) :
    ∀ (K j fuel : Nat) (readbuf : Nat → u8) (reads : List Nat),
      (∀ k, k < K → ¬ (addr (j + k) = 0 ∨ addr (j + k) = master.size ∨ addr (j + k) = limit)) →
      (addr (j + K) = 0 ∨ addr (j + K) = master.size ∨ addr (j + K) = limit) →
      K < fuel →
      ∃ b, magic_scan cfg master alloc limit fuel (addr j) readbuf reads
        = some (addr (j + K), b, reads ++ (List.range K).map (fun k => addr (j + k))) := by
  intro K
  induction K with
  | zero =>
    intro j fuel readbuf reads _ hstop hfuel
    obtain ⟨f, rfl⟩ : ∃ f, fuel = f + 1 := ⟨fuel - 1, by omega⟩
    refine ⟨readbuf, ?_⟩
    rw [magic_scan]
    have : ¬ (addr j ≠ 0 ∧ addr j ≠ master.size ∧ addr j ≠ limit) := by
      intro h
      rcases hstop with h1 | h1 | h1
      · exact h.1 h1
      · exact h.2.1 h1
      · exact h.2.2 h1
    simp [this]
  | succ K ih =>
    intro j fuel readbuf reads hbefore hstop hfuel
    obtain ⟨f, rfl⟩ : ∃ f, fuel = f + 1 := ⟨fuel - 1, by omega⟩
    have h0 := hbefore 0 (by omega)
    simp only [Nat.add_zero] at h0
    have hgo : addr j ≠ 0 ∧ addr j ≠ master.size ∧ addr j ≠ limit := by
      push_neg at h0
      exact h0
    have hstep : ∀ k, k < K → ¬ (addr (j + 1 + k) = 0 ∨ addr (j + 1 + k) = master.size
        ∨ addr (j + 1 + k) = limit) := by
      intro k hk
      have := hbefore (k + 1) (by omega)
      have e : j + (k + 1) = j + 1 + k := by omega
      rwa [e] at this
    have hstop2 : addr (j + 1 + K) = 0 ∨ addr (j + 1 + K) = master.size
        ∨ addr (j + 1 + K) = limit := by
      have e : j + (K + 1) = j + 1 + K := by omega
      rwa [e] at hstop
    obtain ⟨b, hb⟩ := ih (j + 1) f (master.read (addr j) alloc).buf (reads ++ [addr j])
      hstep hstop2 (by omega)
    refine ⟨b, ?_⟩
    rw [magic_scan, if_pos hgo]
    simp only [hnomagic, Bool.false_eq_true, if_false, ite_self, hnext]
    rw [hb]
    have e : j + (K + 1) = j + 1 + K := by omega
    rw [e, List.range_succ_eq_map, List.map_cons, List.map_map]
    simp only [List.append_assoc, List.singleton_append, Nat.add_zero]
    have hfun : ((fun k => addr (j + k)) ∘ Nat.succ) = (fun k => addr (j + 1 + k)) := by
      funext k
      simp only [Function.comp, Nat.succ_eq_add_one]
      congr 1
      omega
    rw [hfun]

/-- Without bad blocks the backward bad-block loop leaves `search_addr` at the start. -/
theorem align_backward_no_bad (fuel : Nat) (cfg : glumboot_config) (master : mtd_info)
    (hneg : cfg.offset < 0)
    (hgood : ∀ isbad, master.block_isbad = some isbad → ∀ x, isbad x = false) :
    glumboot_align (fuel + 1) cfg master = some (some (search_start cfg master)) := by
  unfold glumboot_align
  simp only [hneg, if_true]
  rw [skip_bad_backward]
  cases h : master.block_isbad with
  | none => rfl
  | some isbad => simp [hgood isbad h]

/-! ## Further lemmas: checksum, termination, bounds -/

/-- Every address the probe loop adds to the list of reads is none of the
three stop values. -/
theorem magic_scan_reads_not_stop (cfg : glumboot_config) (master : mtd_info) (alloc limit : Nat) :
    ∀ (fuel search_addr : Nat) (readbuf : Nat → u8) (reads : List Nat)
      (x : Nat) (b : Nat → u8) (rs : List Nat),
      magic_scan cfg master alloc limit fuel search_addr readbuf reads = some (x, b, rs) →
      ∀ y, y ∈ rs → y ∈ reads ∨ (y ≠ 0 ∧ y ≠ master.size ∧ y ≠ limit) := by
  intro fuel
  induction fuel with
  | zero => intro _ _ _ x b rs h; simp [magic_scan] at h
  | succ fuel ih =>
    intro search_addr readbuf reads x b rs h y hy
    rw [magic_scan] at h
    by_cases hstop : search_addr ≠ 0 ∧ search_addr ≠ master.size ∧ search_addr ≠ limit
    · rw [if_pos hstop] at h
      have hrec : ∀ bf, magic_scan cfg master alloc limit fuel
          (search_next_block cfg master search_addr) bf (reads ++ [search_addr]) = some (x, b, rs) →
          y ∈ reads ∨ (y ≠ 0 ∧ y ≠ master.size ∧ y ≠ limit) := by
        intro bf hh
        rcases ih _ _ _ x b rs hh y hy with h1 | h1
        · rw [List.mem_append, List.mem_singleton] at h1
          rcases h1 with h2 | h2
          · exact Or.inl h2
          · rw [h2]; exact Or.inr hstop
        · exact Or.inr h1
      by_cases hfail : (master.read search_addr alloc).ret ≠ 0
          ∨ (master.read search_addr alloc).retlen < 8
      · simp only [hfail, if_true] at h
        exact hrec _ h
      · simp only [hfail, if_false] at h
        by_cases hm : magic_match (master.read search_addr alloc).buf = true
        · simp only [hm, if_true, Option.some.injEq, Prod.mk.injEq] at h
          rw [← h.2.2, List.mem_append, List.mem_singleton] at hy
          rcases hy with h2 | h2
          · exact Or.inl h2
          · rw [h2]; exact Or.inr hstop
        · simp only [hm] at h
          exact hrec _ h
    · rw [if_neg hstop] at h
      simp only [Option.some.injEq, Prod.mk.injEq] at h
      rw [← h.2.2] at hy
      exact Or.inl hy

/-- The search part never reads at a stop value. -/
theorem locate_reads_not_stop (fuel : Nat) (cfg : glumboot_config) (master : mtd_info)
    (res : locate_result) (h : glumboot_locate fuel cfg master = some res) :
    ∀ y, y ∈ locate_reads res →
      y ≠ 0 ∧ y ≠ master.size ∧ y ≠ search_limit cfg master := by
  unfold glumboot_locate at h
  split at h
  · simp at h
  · simp only [Option.some.injEq] at h
    subst h
    intro y hy
    simp [locate_reads] at hy
  · split at h
    · simp at h
    · split at h
      · simp only [Option.some.injEq] at h
        subst h
        intro y hy
        simp [locate_reads] at hy
      · split at h
        · simp at h
        · rename_i x sa b rs hscan
          have hmem := magic_scan_reads_not_stop cfg master _ _ _ _ _ _ _ _ _ hscan
          have hrs : locate_reads res = rs := by
            split at h
            · simp only [Option.some.injEq] at h
              rw [← h]; rfl
            · simp only [Option.some.injEq] at h
              rw [← h]; rfl
          intro y hy
          rw [hrs] at hy
          rcases hmem y hy with h1 | h1
          · simp at h1
          · exact h1

/-- The forward bad-block loop asks about `offset` at every turn, so it never
leaves through its condition once the predicate holds there. -/
theorem skip_bad_forward_stuck (cfg : glumboot_config) (master : mtd_info) (limit : Nat)
    (isbad : Nat → Bool) (hp : master.block_isbad = some isbad)
    (hbad : isbad cfg.offset.toNat = true) :
    ∀ (fuel x y : Nat), skip_bad_forward cfg master limit fuel x ≠ some (some y) := by
  intro fuel
  induction fuel with
  | zero => intro x y; simp [skip_bad_forward]
  | succ fuel ih =>
    intro x y
    rw [skip_bad_forward]
    simp only [hp, hbad, if_true]
    split
    · simp
    · exact ih _ y

/-- The forward bad-block loop can only end successfully at the address it
began with. -/
theorem skip_bad_forward_some (cfg : glumboot_config) (master : mtd_info) (limit : Nat)
    (fuel x y : Nat) (h : skip_bad_forward cfg master limit fuel x = some (some y)) : y = x := by
  cases fuel with
  | zero => simp [skip_bad_forward] at h
  | succ fuel =>
    cases hp : master.block_isbad with
    | none =>
      rw [skip_bad_forward] at h
      simp only [hp, Option.some.injEq] at h
      exact h.symm
    | some isbad =>
      by_cases hbad : isbad cfg.offset.toNat = true
      · exact absurd h (skip_bad_forward_stuck cfg master limit isbad hp hbad _ x y)
      · rw [skip_bad_forward] at h
        simp only [hp, hbad, Bool.false_eq_true, if_false, Option.some.injEq] at h
        exact h.symm

/-- With anchor 0 the search part never locates a table. -/
theorem locate_anchor_zero (fuel : Nat) (cfg : glumboot_config) (master : mtd_info)
    (h0 : cfg.offset = 0) (a : Nat) (b : Nat → u8) (rs : List Nat) :
    glumboot_locate fuel cfg master ≠ some (.found a b rs) := by
  intro h
  unfold glumboot_locate at h
  split at h
  · simp at h
  · simp at h
  · rename_i sa hal
    have hsa : sa = 0 := by
      unfold glumboot_align at hal
      simp only [h0, lt_self_iff_false, if_false] at hal
      have := skip_bad_forward_some cfg master _ _ _ _ hal
      rw [this]
      simp [search_start, h0, wrap32]
    subst hsa
    split at h
    · simp at h
    · split at h
      · simp at h
      · cases fuel with
        | zero => simp [magic_scan] at h
        | succ fuel =>
          rw [magic_scan] at h
          simp at h

/-- One bit step keeps the checksum within 32 bits. -/
theorem crc32_bit_lt (x : Nat) (hx : x < 4294967296) : crc32_bit x < 4294967296 := by
  unfold crc32_bit
  have h1 : x >>> 1 < 2 ^ 32 := by
    rw [Nat.shiftRight_eq_div_pow]; omega
  have h2 : (if x % 2 = 1 then CRCPOLY_LE else 0) < 2 ^ 32 := by
    split <;> simp [CRCPOLY_LE]
  exact Nat.xor_lt_two_pow h1 h2

/-- Bit 31 of the result of a bit step tells the bit that was shifted out. -/
theorem crc32_bit_testBit (x : Nat) (hx : x < 4294967296) :
    (crc32_bit x).testBit 31 = decide (x % 2 = 1) := by
  unfold crc32_bit
  have h1 : x >>> 1 < 2 ^ 31 := by
    rw [Nat.shiftRight_eq_div_pow]; omega
  rw [Nat.testBit_xor, Nat.testBit_lt_two_pow h1]
  by_cases h : x % 2 = 1
  · simp only [h, if_true, decide_True]
    decide
  · simp [h]

/-- One bit step is injective on 32-bit values. -/
theorem crc32_bit_inj (x y : Nat) (hx : x < 4294967296) (hy : y < 4294967296)
    (h : crc32_bit x = crc32_bit y) : x = y := by
  have hb : decide (x % 2 = 1) = decide (y % 2 = 1) := by
    rw [← crc32_bit_testBit x hx, ← crc32_bit_testBit y hy, h]
  have hpar : (x % 2 = 1) ↔ (y % 2 = 1) := by
    constructor
    · intro hx1
      have : decide (y % 2 = 1) = true := by rw [← hb]; exact decide_eq_true hx1
      exact of_decide_eq_true this
    · intro hy1
      have : decide (x % 2 = 1) = true := by rw [hb]; exact decide_eq_true hy1
      exact of_decide_eq_true this
  unfold crc32_bit at h
  have hm : (if x % 2 = 1 then CRCPOLY_LE else 0) = (if y % 2 = 1 then CRCPOLY_LE else 0) := by
    by_cases hx1 : x % 2 = 1
    · simp [hx1, hpar.mp hx1]
    · have : ¬ y % 2 = 1 := fun hy1 => hx1 (hpar.mpr hy1)
      simp [hx1, this]
  rw [hm] at h
  have hs : x >>> 1 = y >>> 1 := Nat.xor_left_injective h
  rw [Nat.shiftRight_eq_div_pow, Nat.shiftRight_eq_div_pow] at hs
  have : x % 2 = y % 2 := by
    by_cases hx1 : x % 2 = 1
    · rw [hx1, hpar.mp hx1]
    · have : ¬ y % 2 = 1 := fun hy1 => hx1 (hpar.mpr hy1)
      omega
  omega

/-- Repeated bit steps keep the checksum within 32 bits. -/
theorem crc32_bits_lt (n x : Nat) (hx : x < 4294967296) :
    Nat.iterate crc32_bit n x < 4294967296 := by
  induction n generalizing x with
  | zero => exact hx
  | succ n ih => rw [Function.iterate_succ_apply]; exact ih _ (crc32_bit_lt x hx)

/-- Repeated bit steps are injective on 32-bit values. -/
theorem crc32_bits_inj (n x y : Nat) (hx : x < 4294967296) (hy : y < 4294967296)
    (h : Nat.iterate crc32_bit n x = Nat.iterate crc32_bit n y) : x = y := by
  induction n generalizing x y with
  | zero => exact h
  | succ n ih =>
    rw [Function.iterate_succ_apply, Function.iterate_succ_apply] at h
    exact crc32_bit_inj x y hx hy (ih _ _ (crc32_bit_lt x hx) (crc32_bit_lt y hy) h)

/-- A 32-bit value with a byte mixed in is a 32-bit value. -/
theorem xor_byte_lt (c : Nat) (b : u8) (hc : c < 4294967296) : c ^^^ b.val < 4294967296 := by
  have hb : b.val < 2 ^ 32 := by have := b.isLt; omega
  exact Nat.xor_lt_two_pow (by simpa using hc) hb

/-- The byte step keeps the checksum within 32 bits. -/
theorem crc32_byte_lt (c : Nat) (b : u8) (hc : c < 4294967296) :
    crc32_byte c b < 4294967296 :=
  crc32_bits_lt 8 _ (xor_byte_lt c b hc)

/-- The byte step is injective in the pair of checksum and byte mixed together. -/
theorem crc32_byte_inj (c d : Nat) (a b : u8) (hc : c < 4294967296) (hd : d < 4294967296)
    (h : crc32_byte c a = crc32_byte d b) : c ^^^ a.val = d ^^^ b.val :=
  crc32_bits_inj 8 _ _ (xor_byte_lt c a hc) (xor_byte_lt d b hd) h

/-- The checksum of a byte list stays within 32 bits. -/
theorem crc32_le_lt (p : List u8) (c : Nat) (hc : c < 4294967296) :
    crc32_le c p < 4294967296 := by
  induction p generalizing c with
  | nil => exact hc
  | cons b p ih =>
    show crc32_le (crc32_byte c b) p < 4294967296
    exact ih _ (crc32_byte_lt c b hc)

/-- Appending one byte to the checksummed data. -/
theorem crc32_le_snoc (p : List u8) (b : u8) (c : Nat) :
    crc32_le c (p ++ [b]) = crc32_byte (crc32_le c p) b := by
  simp [crc32_le, List.foldl_append]

/-- One more byte of a memory block. -/
theorem mem_bytes_succ (buf : Nat → u8) (s n : Nat) :
    mem_bytes buf s (n + 1) = mem_bytes buf s n ++ [buf (s + n)] := by
  simp [mem_bytes, List.range_succ]

/-- The checksums of two memory blocks that differ in exactly one byte: equal
as long as the differing byte is not covered, different from then on. -/
theorem crc32_le_single_byte (buf other : Nat → u8) (s i : Nat) (c : Nat)
    (hc : c < 4294967296) (hi : other (s + i) ≠ buf (s + i))
    (hsame : ∀ k, k ≠ i → other (s + k) = buf (s + k)) :
    ∀ n, (n ≤ i → crc32_le c (mem_bytes other s n) = crc32_le c (mem_bytes buf s n)) ∧
      (i < n → crc32_le c (mem_bytes other s n) ≠ crc32_le c (mem_bytes buf s n)) := by
  intro n
  induction n with
  | zero =>
    constructor
    · intro _; rfl
    · intro h; omega
  | succ n ih =>
    rw [mem_bytes_succ, mem_bytes_succ, crc32_le_snoc, crc32_le_snoc]
    have hl1 := crc32_le_lt (mem_bytes other s n) c hc
    have hl2 := crc32_le_lt (mem_bytes buf s n) c hc
    constructor
    · intro hle
      rw [ih.1 (by omega), hsame n (by omega)]
    · intro hlt
      intro heq
      have hx := crc32_byte_inj _ _ _ _ hl1 hl2 heq
      by_cases hn : n = i
      · subst hn
        rw [ih.1 (le_refl _)] at hx
        have := Nat.xor_right_injective hx
        exact hi (Fin.ext this)
      · rw [hsame n hn] at hx
        have := Nat.xor_left_injective hx
        exact ih.2 (by omega) this

/-- A `u32` field read from bytes that two buffers share. -/
theorem le32_congr (buf other : Nat → u8) (i : Nat)
    (h : ∀ k, i ≤ k → k < i + 4 → other k = buf k) : le32 other i = le32 buf i := by
  unfold le32
  rw [h i (by omega) (by omega), h (i + 1) (by omega) (by omega),
    h (i + 2) (by omega) (by omega), h (i + 3) (by omega) (by omega)]

/-- A memory block read from bytes that two buffers share. -/
theorem mem_bytes_congr (buf other : Nat → u8) (s n : Nat)
    (h : ∀ k, s ≤ k → k < s + n → other k = buf k) : mem_bytes other s n = mem_bytes buf s n := by
  unfold mem_bytes
  apply List.map_congr_left
  intro i hi
  rw [List.mem_range] at hi
  exact h _ (by omega) (by omega)

/-- The result of a call is the same on every medium of the same geometry
that answers the reads the call issued in the same way. -/
theorem parse_set_read (fuel : Nat) (cfg : glumboot_config) (master : mtd_info)
    (st : glumboot_static) (f : Nat → Nat → read_result) (r : parse_result)
    (h : parse_glumboot_partitions fuel cfg master st = some r)
    (hsame : ∀ y, y ∈ r.reads →
      f y (glumboot_alloc master) = master.read y (glumboot_alloc master)) :
    parse_glumboot_partitions fuel cfg (set_read master f) st = some r := by
  cases hloc : glumboot_locate fuel cfg master with
  | none => simp [parse_glumboot_partitions, hloc] at h
  | some res =>
    cases res with
    | fail ret reads =>
      rw [parse_of_fail fuel cfg master st ret reads hloc] at h
      simp only [Option.some.injEq] at h
      subst h
      exact parse_of_fail fuel cfg (set_read master f) st ret reads
        (locate_set_read fuel cfg master f _ hloc hsame)
    | found a b reads =>
      rw [parse_of_found fuel cfg master st a b reads hloc] at h
      simp only [Option.some.injEq] at h
      subst h
      exact parse_of_found fuel cfg (set_read master f) st a b reads
        (locate_set_read fuel cfg master f _ hloc hsame)

/-- The copy loop over at most ten records writes no name byte above index
`16 * 9 + 20`. -/
theorem materialise_names_frame (readbuf : Nat → u8) (st : glumboot_static) (c : Nat)
    (hc : c ≤ GLUMBOOT_MAX_NR_PARTS) (i : Nat) (hi : 16 * 9 + 20 < i) :
    (materialise readbuf c st).glumboot_names i = st.glumboot_names i := by
  induction c with
  | zero => rfl
  | succ c ih =>
    rw [materialise_succ]
    simp only [GLUMBOOT_MAX_NR_PARTS] at hc
    simp only [materialise_step, store, memcpy]
    have h1 : ¬ (i = 16 * c + 20) := by omega
    have h2 : ¬ (16 * c ≤ i ∧ i < 16 * c + 19) := by omega
    simp only [h1, h2, if_false]
    exact ih (by simp only [GLUMBOOT_MAX_NR_PARTS]; omega)

/-- The body of the copy loop for one of the ten records reads only the first
352 bytes of the buffer. -/
theorem materialise_step_congr (readbuf other : Nat → u8) (st : glumboot_static) (n : Nat)
    (hn : n < GLUMBOOT_MAX_NR_PARTS)
    (h : ∀ i, i < 352 → other i = readbuf i) :
    materialise_step other st n = materialise_step readbuf st n := by
  simp only [GLUMBOOT_MAX_NR_PARTS] at hn
  have hoff : partition_offset other n = partition_offset readbuf n := by
    unfold partition_offset
    apply le32_congr
    intro k _ hk
    apply h
    simp only [partition_at, sizeof_partition_table, sizeof_partition_type] at hk
    omega
  have hsz : partition_size other n = partition_size readbuf n := by
    unfold partition_size
    apply le32_congr
    intro k _ hk
    apply h
    simp only [partition_at, sizeof_partition_table, sizeof_partition_type] at hk
    omega
  have hcp : memcpy st.glumboot_names (16 * n) other (partition_at n) 19
      = memcpy st.glumboot_names (16 * n) readbuf (partition_at n) 19 := by
    funext i
    unfold memcpy
    split
    · apply h
      simp only [partition_at, sizeof_partition_table, sizeof_partition_type]
      omega
    · rfl
  simp only [materialise_step, hoff, hsz, hcp]

/-- The copy loop over at most ten records reads only the first 352 bytes. -/
theorem materialise_congr (readbuf other : Nat → u8) (st : glumboot_static) (c : Nat)
    (hc : c ≤ GLUMBOOT_MAX_NR_PARTS)
    (h : ∀ i, i < 352 → other i = readbuf i) :
    materialise other c st = materialise readbuf c st := by
  induction c with
  | zero => rfl
  | succ c ih =>
    rw [materialise_succ, materialise_succ, ih (by omega),
      materialise_step_congr readbuf other _ c (by omega) h]

/-- The decoding part reads only the first 352 bytes of the buffer. -/
theorem decode_congr (readbuf other : Nat → u8) (st : glumboot_static)
    (h : ∀ i, i < 352 → other i = readbuf i) :
    glumboot_decode other st = glumboot_decode readbuf st := by
  have hcount : partition_count other = partition_count readbuf :=
    le32_congr readbuf other _ (fun k _ hk => h k (by omega))
  have hstored : table_crc32 other = table_crc32 readbuf :=
    le32_congr readbuf other _ (fun k _ hk => h k (by omega))
  unfold glumboot_decode
  rw [hcount, hstored]
  by_cases hc : partition_count readbuf > GLUMBOOT_MAX_NR_PARTS
  · simp [hc]
  · have hc2 : partition_count readbuf ≤ GLUMBOOT_MAX_NR_PARTS := by omega
    have hsum : table_checksum other = table_checksum readbuf := by
      unfold table_checksum
      rw [hcount]
      congr 2
      apply mem_bytes_congr
      intro k _ hk
      apply h
      simp only [GLUMBOOT_MAX_NR_PARTS] at hc2
      simp only [sizeof_partition_table, sizeof_partition_type] at hk
      omega
    rw [hsum, materialise_congr readbuf other st _ hc2 h]

/-- Two memories that share the bytes up to the first zero byte hold the same
string. -/
theorem cstr_agree (mem other : Nat → u8) :
    ∀ (j p q bound limit : Nat),
      (∀ k, k ≤ j → mem (p + k) = other (q + k)) → other (q + j) = 0 →
      j < bound → j < limit → cstr mem p bound = cstr other q limit := by
  intro j
  induction j with
  | zero =>
    intro p q bound limit hsame hz hb hl
    obtain ⟨b, rfl⟩ : ∃ b, bound = b + 1 := ⟨bound - 1, by omega⟩
    obtain ⟨l, rfl⟩ : ∃ l, limit = l + 1 := ⟨limit - 1, by omega⟩
    have h0 := hsame 0 (le_refl _)
    simp only [Nat.add_zero] at h0 hz
    simp [cstr, h0, hz]
  | succ j ih =>
    intro p q bound limit hsame hz hb hl
    obtain ⟨b, rfl⟩ : ∃ b, bound = b + 1 := ⟨bound - 1, by omega⟩
    obtain ⟨l, rfl⟩ : ∃ l, limit = l + 1 := ⟨limit - 1, by omega⟩
    have h0 := hsame 0 (by omega)
    simp only [Nat.add_zero] at h0
    simp only [cstr, h0]
    split
    · rfl
    · congr 1
      apply ih (p + 1) (q + 1) b l
      · intro k hk
        have := hsame (k + 1) (by omega)
        have e1 : p + 1 + k = p + (k + 1) := by omega
        have e2 : q + 1 + k = q + (k + 1) := by omega
        rw [e1, e2]; exact this
      · have e2 : q + 1 + j = q + (j + 1) := by omega
        rw [e2]; exact hz
      · omega
      · omega

/-- Integers that agree modulo 2^32 have the same truncation. -/
theorem wrap32_congr (x y : Int) (h : x ≡ y [ZMOD 4294967296]) : wrap32 x = wrap32 y := by
  unfold wrap32
  rw [h]

/-- The truncation of an integer is congruent to it. -/
theorem wrap32_modEq (x : Int) : ((wrap32 x : Nat) : Int) ≡ x [ZMOD 4294967296] := by
  rw [wrap32_cast]
  exact Int.mod_modEq x 4294967296

/-- The address `SEARCH_DEPTH mod 2^32` units below the start of a backward
search is `search_addr_limit`, whatever the sign of the depth. -/
theorem backward_addr_wrap_depth (cfg : glumboot_config) (master : mtd_info)
    (hneg : cfg.offset < 0) :
    backward_addr cfg master (wrap32 cfg.SEARCH_DEPTH) = search_limit cfg master := by
  unfold backward_addr search_limit
  simp only [hneg, if_true]
  apply wrap32_congr
  apply Int.ModEq.sub (Int.ModEq.refl _)
  exact ((wrap32_modEq cfg.SEARCH_DEPTH).mul_right _).trans (wrap32_modEq _).symm

/-- One backward step, as the bad-block loop takes it. -/
theorem backward_addr_step (cfg : glumboot_config) (master : mtd_info) (hneg : cfg.offset < 0)
    (k : Nat) :
    wrap32 (backward_addr cfg master k - master.erasesize) = backward_addr cfg master (k + 1) := by
  have := backward_addr_succ cfg master hneg k
  unfold search_next_block at this
  simpa only [hneg, if_true] using this

/-- A forward search starts at `search_start`. -/
theorem forward_addr_zero (cfg : glumboot_config) (master : mtd_info) (hpos : ¬ cfg.offset < 0) :
    forward_addr cfg master 0 = search_start cfg master := by
  unfold forward_addr search_start
  simp only [hpos, if_false, Nat.cast_zero, zero_mul, add_zero]
  exact wrap32_idem _

/-- One forward step, as the bad-block loop takes it. -/
theorem forward_addr_step (cfg : glumboot_config) (master : mtd_info) (k : Nat) :
    wrap32 (forward_addr cfg master k + master.erasesize) = forward_addr cfg master (k + 1) := by
  unfold forward_addr
  apply wrap32_congr
  have h := wrap32_modEq ((search_start cfg master : Int) + (k : Int) * master.erasesize)
  have h2 := h.add_right (master.erasesize : Int)
  refine h2.trans ?_
  push_cast
  ring_nf
  exact Int.ModEq.refl _

/-- One forward step of the probe loop. -/
theorem forward_addr_succ (cfg : glumboot_config) (master : mtd_info) (hpos : ¬ cfg.offset < 0)
    (k : Nat) :
    search_next_block cfg master (forward_addr cfg master k) = forward_addr cfg master (k + 1) := by
  unfold search_next_block
  simp only [hpos, if_false]
  exact forward_addr_step cfg master k

/-- A forward search meets `search_addr_limit` after at least one and at most
2^32 steps. -/
theorem forward_addr_limit (cfg : glumboot_config) (master : mtd_info) (hpos : ¬ cfg.offset < 0) :
    forward_addr cfg master (wrap32 (cfg.SEARCH_DEPTH - cfg.offset - 1) + 1)
      = search_limit cfg master := by
  unfold forward_addr search_limit search_start
  simp only [hpos, if_false]
  apply wrap32_congr
  have h1 := wrap32_modEq (cfg.offset * (master.erasesize : Int))
  have h2 := (wrap32_modEq (cfg.SEARCH_DEPTH - cfg.offset - 1)).add_right 1
  have h3 := h2.mul_right (master.erasesize : Int)
  have h4 := h1.add h3
  push_cast
  refine h4.trans ?_
  ring_nf
  exact Int.ModEq.refl _

/-- A truncation is below 2^32. -/
theorem wrap32_lt (x : Int) : wrap32 x < 4294967296 := by
  unfold wrap32
  omega

/-- The probe loop returns when the address sequence meets the limit within
the fuel; it adds at most as many reads as there are steps to the limit. -/
theorem magic_scan_terminates (cfg : glumboot_config) (master : mtd_info) (alloc limit : Nat)
    (addr : Nat → Nat) (hnext : ∀ k, search_next_block cfg master (addr k) = addr (k + 1)) :
    ∀ (K j fuel : Nat) (readbuf : Nat → u8) (reads : List Nat),
      addr (j + K) = limit → K < fuel →
      ∃ x b t, magic_scan cfg master alloc limit fuel (addr j) readbuf reads
          = some (x, b, reads ++ t) ∧ t.length ≤ K := by
  intro K
  induction K with
  | zero =>
    intro j fuel readbuf reads hlim hfuel
    obtain ⟨f, rfl⟩ : ∃ f, fuel = f + 1 := ⟨fuel - 1, by omega⟩
    refine ⟨addr j, readbuf, [], ?_, by simp⟩
    rw [magic_scan]
    simp only [Nat.add_zero] at hlim
    simp [hlim]
  | succ K ih =>
    intro j fuel readbuf reads hlim hfuel
    obtain ⟨f, rfl⟩ : ∃ f, fuel = f + 1 := ⟨fuel - 1, by omega⟩
    rw [magic_scan]
    have e : j + (K + 1) = j + 1 + K := by omega
    rw [e] at hlim
    have hrec : ∀ bf, ∃ x b t, magic_scan cfg master alloc limit f
        (search_next_block cfg master (addr j)) bf (reads ++ [addr j])
          = some (x, b, reads ++ t) ∧ t.length ≤ K + 1 := by
      intro bf
      rw [hnext]
      obtain ⟨x, b, t, ht, hlen⟩ := ih (j + 1) f bf (reads ++ [addr j]) hlim (by omega)
      refine ⟨x, b, addr j :: t, ?_, by simp; omega⟩
      rw [ht]; simp
    by_cases hstop : addr j ≠ 0 ∧ addr j ≠ master.size ∧ addr j ≠ limit
    · rw [if_pos hstop]
      by_cases hfail : (master.read (addr j) alloc).ret ≠ 0
          ∨ (master.read (addr j) alloc).retlen < 8
      · simp only [hfail, if_true]
        exact hrec _
      · simp only [hfail, if_false]
        by_cases hm : magic_match (master.read (addr j) alloc).buf = true
        · simp only [hm, if_true]
          exact ⟨addr j, _, [addr j], rfl, by simp⟩
        · simp only [hm]
          exact hrec _
    · rw [if_neg hstop]
      exact ⟨addr j, readbuf, [], by simp, by simp⟩

/-- The backward bad-block loop returns when the address sequence meets the
limit within the fuel, at one of the addresses up to there. -/
theorem skip_bad_backward_terminates (master : mtd_info) (limit : Nat) (addr : Nat → Nat)
    (hstep : ∀ k, wrap32 (addr k - master.erasesize) = addr (k + 1)) :
    ∀ (K j fuel : Nat), addr (j + K) = limit → K < fuel →
      ∃ o, skip_bad_backward master limit fuel (addr j) = some o ∧
        (o = none ∨ ∃ i, i ≤ K ∧ o = some (addr (j + i))) := by
  intro K
  induction K with
  | zero =>
    intro j fuel hlim hfuel
    obtain ⟨f, rfl⟩ : ∃ f, fuel = f + 1 := ⟨fuel - 1, by omega⟩
    rw [skip_bad_backward]
    simp only [Nat.add_zero] at hlim
    cases master.block_isbad with
    | none => exact ⟨_, rfl, Or.inr ⟨0, le_refl _, rfl⟩⟩
    | some isbad =>
      simp only
      by_cases hb : isbad (addr j) = true
      · rw [if_pos hb, if_pos (Or.inr hlim)]
        exact ⟨_, rfl, Or.inl rfl⟩
      · rw [if_neg hb]
        exact ⟨_, rfl, Or.inr ⟨0, le_refl _, rfl⟩⟩
  | succ K ih =>
    intro j fuel hlim hfuel
    obtain ⟨f, rfl⟩ : ∃ f, fuel = f + 1 := ⟨fuel - 1, by omega⟩
    rw [skip_bad_backward]
    have e : j + (K + 1) = j + 1 + K := by omega
    rw [e] at hlim
    cases master.block_isbad with
    | none => exact ⟨_, rfl, Or.inr ⟨0, by omega, rfl⟩⟩
    | some isbad =>
      simp only
      by_cases hb : isbad (addr j) = true
      · rw [if_pos hb]
        by_cases hs : addr j = 0 ∨ addr j = limit
        · rw [if_pos hs]
          exact ⟨_, rfl, Or.inl rfl⟩
        · rw [if_neg hs, hstep]
          obtain ⟨o, ho, hcase⟩ := ih (j + 1) f hlim (by omega)
          refine ⟨o, ho, ?_⟩
          rcases hcase with h1 | ⟨i, hi, h1⟩
          · exact Or.inl h1
          · refine Or.inr ⟨i + 1, by omega, ?_⟩
            have e2 : j + (i + 1) = j + 1 + i := by omega
            rw [e2]; exact h1
      · rw [if_neg hb]
        exact ⟨_, rfl, Or.inr ⟨0, by omega, rfl⟩⟩

/-- The forward bad-block loop returns when the address sequence meets the
limit, one step ahead, within the fuel. -/
theorem skip_bad_forward_terminates (cfg : glumboot_config) (master : mtd_info) (limit : Nat)
    (addr : Nat → Nat)
    (hstep : ∀ k, wrap32 (addr k + master.erasesize) = addr (k + 1)) :
    ∀ (K j fuel : Nat), addr (j + K + 1) = limit → K < fuel →
      ∃ o, skip_bad_forward cfg master limit fuel (addr j) = some o := by
  intro K
  induction K with
  | zero =>
    intro j fuel hlim hfuel
    obtain ⟨f, rfl⟩ : ∃ f, fuel = f + 1 := ⟨fuel - 1, by omega⟩
    rw [skip_bad_forward]
    simp only [Nat.add_zero] at hlim
    cases master.block_isbad with
    | none => exact ⟨_, rfl⟩
    | some isbad =>
      simp only
      by_cases hb : isbad cfg.offset.toNat = true
      · rw [if_pos hb, hstep, if_pos (Or.inr hlim)]
        exact ⟨_, rfl⟩
      · rw [if_neg hb]
        exact ⟨_, rfl⟩
  | succ K ih =>
    intro j fuel hlim hfuel
    obtain ⟨f, rfl⟩ : ∃ f, fuel = f + 1 := ⟨fuel - 1, by omega⟩
    rw [skip_bad_forward]
    cases master.block_isbad with
    | none => exact ⟨_, rfl⟩
    | some isbad =>
      simp only
      by_cases hb : isbad cfg.offset.toNat = true
      · rw [if_pos hb, hstep]
        by_cases hs : addr (j + 1) = master.size ∨ addr (j + 1) = limit
        · rw [if_pos hs]
          exact ⟨_, rfl⟩
        · rw [if_neg hs]
          have e : j + (K + 1) + 1 = j + 1 + K + 1 := by omega
          rw [e] at hlim
          exact ih (j + 1) f hlim (by omega)
      · rw [if_neg hb]
        exact ⟨_, rfl⟩

/-- The search part returns as soon as the bad-block loop has returned and the
probe loop returns from the address it left; the reads are those of the probe
loop. -/
theorem locate_of_scan (fuel : Nat) (cfg : glumboot_config) (master : mtd_info) (N : Nat)
    (o : Option Nat) (hal : glumboot_align fuel cfg master = some o)
    (hw : master.writesize ≠ 0)
    (hscan : ∀ sa, o = some sa → ∀ bf, ∃ x b t,
      magic_scan cfg master (glumboot_alloc master) (search_limit cfg master) fuel sa bf []
        = some (x, b, t) ∧ t.length ≤ N) :
    ∃ res, glumboot_locate fuel cfg master = some res ∧ (locate_reads res).length ≤ N := by
  unfold glumboot_locate
  rw [hal]
  cases o with
  | none => exact ⟨_, rfl, by simp [locate_reads]⟩
  | some sa =>
    simp only [hw, if_false]
    cases cfg.vmalloc (glumboot_alloc master) with
    | none => exact ⟨_, rfl, by simp [locate_reads]⟩
    | some bf =>
      obtain ⟨x, b, t, ht, hlen⟩ := hscan sa rfl bf
      simp only [ht]
      split
      · exact ⟨_, rfl, by simpa [locate_reads] using hlen⟩
      · exact ⟨_, rfl, by simpa [locate_reads] using hlen⟩

/-- The call returns whenever the search part does, with the same reads. -/
theorem parse_of_locate (fuel : Nat) (cfg : glumboot_config) (master : mtd_info)
    (st : glumboot_static) (res : locate_result)
    (h : glumboot_locate fuel cfg master = some res) :
    ∃ r, parse_glumboot_partitions fuel cfg master st = some r ∧ r.reads = locate_reads res := by
  cases res with
  | fail ret reads => exact ⟨_, parse_of_fail fuel cfg master st ret reads h, rfl⟩
  | found a b reads => exact ⟨_, parse_of_found fuel cfg master st a b reads h, rfl⟩

/-- The backward bad-block loop over a stretch of units that are reported bad
and are neither address 0 nor the limit. -/
theorem skip_bad_backward_run (master : mtd_info) (limit : Nat) (addr : Nat → Nat)
    (hstep : ∀ k, wrap32 (addr k - master.erasesize) = addr (k + 1)) :
    ∀ (j i fuel : Nat),
      (∀ k, k < j → reported_bad master (addr (i + k)) = true ∧ addr (i + k) ≠ 0
        ∧ addr (i + k) ≠ limit) →
      skip_bad_backward master limit (fuel + j) (addr i)
        = skip_bad_backward master limit fuel (addr (i + j)) := by
  intro j
  induction j with
  | zero => intro i fuel _; rfl
  | succ j ih =>
    intro i fuel h
    have h0 := h 0 (by omega)
    simp only [Nat.add_zero] at h0
    have e : fuel + (j + 1) = (fuel + j) + 1 := by omega
    rw [e, skip_bad_backward]
    unfold reported_bad at h0
    cases hp : master.block_isbad with
    | none => rw [hp] at h0; simp at h0
    | some isbad =>
      rw [hp] at h0
      simp only at h0 ⊢
      have hs : ¬ (addr i = 0 ∨ addr i = limit) := by
        intro hh
        rcases hh with h1 | h1
        · exact h0.2.1 h1
        · exact h0.2.2 h1
      rw [if_pos h0.1, if_neg hs, hstep]
      have e2 : i + (j + 1) = i + 1 + j := by omega
      rw [e2]
      apply ih (i + 1) fuel
      intro k hk
      have := h (k + 1) (by omega)
      have e3 : i + (k + 1) = i + 1 + k := by omega
      rw [e3] at this
      exact this

/-- The first read of the probe loop, when it begins at an address that is no
stop value, is at that address. -/
theorem magic_scan_head (cfg : glumboot_config) (master : mtd_info) (alloc limit : Nat)
    (fuel a : Nat) (readbuf : Nat → u8) (reads : List Nat)
    (x : Nat) (b : Nat → u8) (rs : List Nat)
    (hgo : a ≠ 0 ∧ a ≠ master.size ∧ a ≠ limit)
    (h : magic_scan cfg master alloc limit fuel a readbuf reads = some (x, b, rs)) :
    ∃ t, rs = reads ++ a :: t := by
  cases fuel with
  | zero => simp [magic_scan] at h
  | succ fuel =>
    rw [magic_scan, if_pos hgo] at h
    have hrec : ∀ bf, magic_scan cfg master alloc limit fuel (search_next_block cfg master a) bf
        (reads ++ [a]) = some (x, b, rs) → ∃ t, rs = reads ++ a :: t := by
      intro bf hh
      obtain ⟨t, ht⟩ := magic_scan_reads_extend cfg master alloc limit _ _ _ _ x b rs hh
      exact ⟨t, by rw [ht]; simp⟩
    by_cases hfail : (master.read a alloc).ret ≠ 0 ∨ (master.read a alloc).retlen < 8
    · simp only [hfail, if_true] at h
      exact hrec _ h
    · simp only [hfail, if_false] at h
      by_cases hm : magic_match (master.read a alloc).buf = true
      · simp only [hm, if_true, Option.some.injEq, Prod.mk.injEq] at h
        exact ⟨[], by rw [← h.2.2]⟩
      · simp only [hm] at h
        exact hrec _ h

/-- A natural number below 2^32 is its own truncation. -/
theorem wrap32_of_lt (n : Nat) (h : n < 4294967296) : wrap32 (n : Int) = n := by
  unfold wrap32
  omega

/-- Without bad blocks the forward bad-block loop leaves `search_addr` at the start. -/
theorem align_forward_no_bad (fuel : Nat) (cfg : glumboot_config) (master : mtd_info)
    (hpos : ¬ cfg.offset < 0)
    (hgood : ∀ isbad, master.block_isbad = some isbad → ∀ x, isbad x = false) :
    glumboot_align (fuel + 1) cfg master = some (some (search_start cfg master)) := by
  unfold glumboot_align
  simp only [hpos, if_false]
  rw [skip_bad_forward]
  cases h : master.block_isbad with
  | none => rfl
  | some isbad => simp [hgood isbad h]

/-- Without overflow the address `k` units above a forward start at unit `A`
is `(A + k) * erasesize`. -/
theorem forward_addr_exact (cfg : glumboot_config) (master : mtd_info) (A k : Nat)
    (hA : cfg.offset = A) (h : (A + k) * master.erasesize < 4294967296) :
    forward_addr cfg master k = (A + k) * master.erasesize := by
  unfold forward_addr search_start
  have hpos : ¬ cfg.offset < 0 := by rw [hA]; omega
  rw [if_neg hpos, hA]
  have hA2 : A * master.erasesize < 4294967296 := by
    have : A * master.erasesize ≤ (A + k) * master.erasesize :=
      Nat.mul_le_mul_right _ (by omega)
    omega
  have e1 : ((A : Int) * (master.erasesize : Int)) = ((A * master.erasesize : Nat) : Int) := by
    push_cast; rfl
  rw [e1, wrap32_of_lt _ hA2]
  have e2 : (((A * master.erasesize : Nat) : Int) + (k : Int) * (master.erasesize : Int))
      = (((A + k) * master.erasesize : Nat) : Int) := by
    push_cast; ring
  rw [e2, wrap32_of_lt _ h]

/-- The backward bad-block loop only ends successfully at a unit that is not
reported bad. -/
theorem skip_bad_backward_good (master : mtd_info) (limit : Nat) :
    ∀ (fuel x y : Nat), skip_bad_backward master limit fuel x = some (some y) →
      reported_bad master y = false := by
  intro fuel
  induction fuel with
  | zero => intro x y h; simp [skip_bad_backward] at h
  | succ fuel ih =>
    intro x y h
    rw [skip_bad_backward] at h
    unfold reported_bad
    cases hp : master.block_isbad with
    | none => rfl
    | some isbad =>
      rw [hp] at h
      simp only at h ⊢
      by_cases hb : isbad x = true
      · rw [if_pos hb] at h
        by_cases hs : x = 0 ∨ x = limit
        · rw [if_pos hs] at h; simp at h
        · rw [if_neg hs] at h
          have := ih _ y h
          unfold reported_bad at this
          rw [hp] at this
          exact this
      · rw [if_neg hb] at h
        simp only [Option.some.injEq] at h
        rw [← h]
        simpa using hb

/-- The reads of the probe loop begun with an empty list: none, or the first
one at the address the loop began with. -/
theorem magic_scan_first (cfg : glumboot_config) (master : mtd_info) (alloc limit : Nat)
    (fuel a : Nat) (readbuf : Nat → u8) (x : Nat) (b : Nat → u8) (rs : List Nat)
    (h : magic_scan cfg master alloc limit fuel a readbuf [] = some (x, b, rs)) :
    rs = [] ∨ ∃ t, rs = a :: t := by
  by_cases hgo : a ≠ 0 ∧ a ≠ master.size ∧ a ≠ limit
  · obtain ⟨t, ht⟩ := magic_scan_head cfg master alloc limit fuel a readbuf [] x b rs hgo h
    exact Or.inr ⟨t, by simpa using ht⟩
  · cases fuel with
    | zero => simp [magic_scan] at h
    | succ fuel =>
      rw [magic_scan, if_neg hgo] at h
      simp only [Option.some.injEq, Prod.mk.injEq] at h
      exact Or.inl h.2.2.symm

/-- The backward search does what the forward search misses: when the unit at
the anchor address is reported bad, the first read, if there is one, is not at
the anchor address. -/
theorem backward_skips_bad_anchor (fuel : Nat) (cfg : glumboot_config) (master : mtd_info)
    (st : glumboot_static) (r : parse_result) (hneg : cfg.offset < 0)
    (hbad : reported_bad master (search_start cfg master) = true)
    (h : parse_glumboot_partitions fuel cfg master st = some r) :
    r.reads.head? ≠ some (search_start cfg master) := by
  cases hloc : glumboot_locate fuel cfg master with
  | none => simp [parse_glumboot_partitions, hloc] at h
  | some res =>
    obtain ⟨r2, hr2, hreads⟩ := parse_of_locate fuel cfg master st res hloc
    rw [h] at hr2
    simp only [Option.some.injEq] at hr2
    subst hr2
    rw [hreads]
    unfold glumboot_locate at hloc
    split at hloc
    · simp at hloc
    · simp only [Option.some.injEq] at hloc
      rw [← hloc]; simp [locate_reads]
    · rename_i sa hal
      have hgood : reported_bad master sa = false := by
        unfold glumboot_align at hal
        rw [if_pos hneg] at hal
        exact skip_bad_backward_good master _ _ _ _ hal
      have hne : sa ≠ search_start cfg master := by
        intro e
        rw [e, hbad] at hgood
        simp at hgood
      split at hloc
      · simp at hloc
      · split at hloc
        · simp only [Option.some.injEq] at hloc
          rw [← hloc]; simp [locate_reads]
        · split at hloc
          · simp at hloc
          · rename_i x sa2 b rs hscan
            have hrs : locate_reads res = rs := by
              split at hloc
              · simp only [Option.some.injEq] at hloc
                rw [← hloc]; rfl
              · simp only [Option.some.injEq] at hloc
                rw [← hloc]; rfl
            rw [hrs]
            rcases magic_scan_first cfg master _ _ _ _ _ _ _ _ hscan with h1 | ⟨t, h1⟩
            · rw [h1]; simp
            · rw [h1]
              simp only [List.head?_cons, ne_eq, Option.some.injEq]
              exact hne

/-! ## Lemmas about the buffer carried from read to read -/

/-- A read that delivers at least the eight bytes of the magic tag decides the
comparison with the tag by what it delivers, whatever the buffer held. -/
theorem deliver_magic (readbuf : Nat → u8) (r : read_result) (len : Nat)
    (hr : 8 ≤ r.retlen) (hl : 8 ≤ len) :
    magic_match (deliver readbuf r len) = magic_match r.buf := by
  unfold magic_match
  have : mem_bytes (deliver readbuf r len) 0 magic.length = mem_bytes r.buf 0 magic.length := by
    apply mem_bytes_congr
    intro k _ hk
    have hk8 : k < 8 := by simpa [magic] using hk
    unfold deliver
    rw [if_pos ⟨by omega, by omega⟩]
  rw [this]

/-- The allocated buffer has room for the header and ten records. -/
theorem alloc_gt (master : mtd_info) (hw : master.writesize ≠ 0) :
    352 < glumboot_alloc master := by
  unfold glumboot_alloc
  have := Nat.lt_mul_div_succ
    (sizeof_partition_table + GLUMBOOT_MAX_NR_PARTS * sizeof_partition_type)
    (show 0 < master.writesize by omega)
  rw [Nat.mul_comm master.writesize] at this
  exact this

/-- The buffer-carrying probe loop and the loop `magic_scan` on a medium whose
reads all deliver the whole buffer: same final address, same reads, and
buffers that agree in the allocated bytes. -/
theorem magic_scan_carry_full (cfg : glumboot_config) (master : mtd_info) (alloc limit : Nat)
    (hal : 8 ≤ alloc) (hfull : ∀ x, alloc ≤ (master.read x alloc).retlen) :
    ∀ (fuel search_addr : Nat) (b1 b2 : Nat → u8) (reads : List Nat),
      (magic_scan_carry cfg master alloc limit fuel search_addr b1 reads = none ∧
        magic_scan cfg master alloc limit fuel search_addr b2 reads = none) ∨
      ∃ x c1 c2 rs,
        magic_scan_carry cfg master alloc limit fuel search_addr b1 reads = some (x, c1, rs) ∧
        magic_scan cfg master alloc limit fuel search_addr b2 reads = some (x, c2, rs) ∧
        (¬ (x = 0 ∨ x = master.size ∨ x = limit) → ∀ i, i < alloc → c1 i = c2 i) := by
  intro fuel
  induction fuel with
  | zero => intro _ _ _ _; left; simp [magic_scan_carry, magic_scan]
  | succ fuel ih =>
    intro search_addr b1 b2 reads
    rw [magic_scan_carry, magic_scan]
    by_cases hstop : search_addr ≠ 0 ∧ search_addr ≠ master.size ∧ search_addr ≠ limit
    · rw [if_pos hstop, if_pos hstop]
      by_cases hf : (master.read search_addr alloc).ret ≠ 0
          ∨ (master.read search_addr alloc).retlen < 8
      · simp only [hf, if_true]
        exact ih _ _ _ _
      · simp only [hf, if_false]
        push_neg at hf
        rw [deliver_magic b1 _ alloc hf.2 hal]
        by_cases hm : magic_match (master.read search_addr alloc).buf = true
        · simp only [hm, if_true]
          right
          refine ⟨_, _, _, _, rfl, rfl, ?_⟩
          intro _ i hi
          unfold deliver
          rw [if_pos ⟨by have := hfull search_addr; omega, hi⟩]
        · simp only [hm]
          exact ih _ _ _ _
    · rw [if_neg hstop, if_neg hstop]
      right
      refine ⟨_, _, _, _, rfl, rfl, ?_⟩
      intro hns
      exfalso; apply hstop
      push_neg at hns
      exact hns

/-- On a medium whose reads all deliver the whole buffer the call with the
buffer carried over is the call `parse_glumboot_partitions`. -/
theorem parse_carry_of_full_reads (fuel : Nat) (cfg : glumboot_config) (master : mtd_info)
    (st : glumboot_static)
    (hfull : ∀ x, glumboot_alloc master ≤ (master.read x (glumboot_alloc master)).retlen) :
    parse_glumboot_partitions_carry fuel cfg master st
      = parse_glumboot_partitions fuel cfg master st := by
  unfold parse_glumboot_partitions_carry glumboot_locate_carry parse_glumboot_partitions
    glumboot_locate
  cases glumboot_align fuel cfg master with
  | none => rfl
  | some o =>
    cases o with
    | none => rfl
    | some sa =>
      simp only
      by_cases hz : master.writesize = 0
      · simp [hz]
      · simp only [hz, if_false]
        have h352 := alloc_gt master hz
        cases cfg.vmalloc (glumboot_alloc master) with
        | none => rfl
        | some rb =>
          simp only
          rcases magic_scan_carry_full cfg master (glumboot_alloc master)
            (search_limit cfg master) (by omega) hfull fuel sa rb rb []
            with ⟨h1, h2⟩ | ⟨x, c1, c2, rs, h1, h2, h3⟩
          · rw [h1, h2]
          · rw [h1, h2]
            simp only
            by_cases hs : x = 0 ∨ x = master.size ∨ x = search_limit cfg master
            · simp [hs]
            · simp only [hs, if_false]
              have hd := decode_congr c2 c1 st (fun i hi => h3 hs i (by omega))
              rw [hd]

/-! ## Sanity checks of the embedding -/

/-- The CRC-32 of the embedding has the standard check value: the digits
"123456789" give 0xCBF43926. -/
theorem crc32_check_value :
    crc32_le 0xFFFFFFFF [0x31, 0x32, 0x33, 0x34, 0x35, 0x36, 0x37, 0x38, 0x39] ^^^ 0xFFFFFFFF
      = 0xCBF43926 := by
  decide

/-- The example of the specification: magic at byte 0x20000, erase unit
0x20000, records ("boot", 0x0, 0x100000) and ("system", 0x100000, 0x300000) with
the right checksum decode to those two tuples after one read. -/
theorem example_boot_system :
    (parse_glumboot_partitions 2 cfg_forward flash_boot_system fresh_static).map
        (fun r => (r.ret, r.reads, descriptors r.st 2))
      = some (2, [0x20000], [(name_boot, 0, 1048576), (name_system, 1048576, 3145728)]) := by
  decide

/-! ## The claims -/

/-- Claim C1. When the search stops at a unit (the buffer then is what the read
at that address delivered, and it starts with "glumboot") whose
`partition_count` is at most 10 and whose stored `crc32` equals the CRC-32 of
its record array, the call returns exactly `partition_count`, sets `*pparts` to
the static descriptor array, and descriptor `n` has the offset and the size of
on-medium record `n` for every `n` below the count. -/
theorem C1_valid_table_decoded (fuel : Nat) (cfg : glumboot_config) (master : mtd_info)
    (st : glumboot_static) (a : Nat) (readbuf : Nat → u8) (reads : List Nat)
    (hloc : glumboot_locate fuel cfg master = some (.found a readbuf reads))
    (hcount : partition_count readbuf ≤ GLUMBOOT_MAX_NR_PARTS)
    (hcrc : table_crc32 readbuf = table_checksum readbuf) :
    readbuf = (master.read a (glumboot_alloc master)).buf ∧
    mem_bytes readbuf 0 8 = magic ∧
    ∃ r, parse_glumboot_partitions fuel cfg master st = some r ∧
      r.ret = partition_count readbuf ∧
      r.st.pparts = parts_ptr.static_array ∧
      ∀ n, n < partition_count readbuf →
        (r.st.glumboot_partitions n).offset = partition_offset readbuf n ∧
        (r.st.glumboot_partitions n).size = partition_size readbuf n := by
  have hf := locate_found fuel cfg master a readbuf reads hloc
  refine ⟨hf.1, ?_, ?_⟩
  · have := hf.2.1
    simpa [magic_match, magic] using this
  · refine ⟨_, parse_of_found fuel cfg master st a readbuf reads hloc, ?_, ?_, ?_⟩
    · simp [decode_ok readbuf st hcount hcrc.symm]
    · simp [decode_ok readbuf st hcount hcrc.symm]
    · intro n hn
      simp [decode_ok readbuf st hcount hcrc.symm, materialise_partitions, hn]

/-- Claim C1 at the example table of two records at 0x20000. -/
theorem C1_witness :
    ∃ r, parse_glumboot_partitions 2 cfg_forward flash_boot_system fresh_static = some r ∧
      r.ret = 2 ∧ r.st.pparts = parts_ptr.static_array ∧
      ∀ n, n < 2 →
        (r.st.glumboot_partitions n).offset = partition_offset (unit_bytes table_boot_system) n ∧
        (r.st.glumboot_partitions n).size = partition_size (unit_bytes table_boot_system) n :=
  (C1_valid_table_decoded 2 cfg_forward flash_boot_system fresh_static 0x20000
    (unit_bytes table_boot_system) [0x20000] (by rfl) (by decide) (by decide)).2.2

/-- Claim C2, the code at a failing input: the table with the records
("ABCDEFGHIJKLMNOP", 0x0, 0x100000) and ("system", 0x100000, 0x300000), encoded
with the right checksum and parsed with zeroed static buffers, comes back with
the first name read as "ABCDEFGHIJKLMNOPsystem": the name slots are 16 bytes
apart, so the copy of record 1 overwrites the end of name 0. -/
theorem C2_sixteen_byte_name_runs_on :
    (parse_glumboot_partitions 2 cfg_forward flash_sixteen fresh_static).map
        (fun r => (r.ret, descriptors r.st 2))
      = some (2, [(name_sixteen ++ name_system, 0, 0x100000), (name_system, 0x100000, 0x300000)]) := by
  decide

/-- Claim C3, the code at a failing input: two records whose name fields hold
twenty bytes "A" and twenty bytes "B" (no zero byte), parsed with zeroed static
buffers. The name of descriptor 0 is read as sixteen "A" followed by nineteen
"B", of length 35 and not 19. -/
theorem C3_full_name_field_runs_on :
    (parse_glumboot_partitions 2 cfg_forward flash_full_names fresh_static).map
        (fun r => (r.ret, (descriptors r.st 2).map (fun d => d.1)))
      = some (2, [List.replicate 16 0x41 ++ List.replicate 19 0x42, List.replicate 19 0x42]) := by
  decide

/-- Claim C4. When the located unit declares more than 10 records, the call
returns -EFAULT without writing any memory, whatever the stored checksum and the
record bytes are (there is no hypothesis on them); the count is not clamped, no
descriptor is produced. -/
theorem C4_too_many_partitions (fuel : Nat) (cfg : glumboot_config) (master : mtd_info)
    (st : glumboot_static) (a : Nat) (readbuf : Nat → u8) (reads : List Nat)
    (hloc : glumboot_locate fuel cfg master = some (.found a readbuf reads))
    (hcount : GLUMBOOT_MAX_NR_PARTS < partition_count readbuf) :
    parse_glumboot_partitions fuel cfg master st = some ⟨-EFAULT, st, reads⟩ := by
  rw [parse_of_found fuel cfg master st a readbuf reads hloc, decode_too_many readbuf st hcount]

/-- Claim C4 at a unit that declares eleven records. -/
theorem C4_witness :
    partition_count (unit_bytes (encode_table eleven_records)) = 11 ∧
    parse_glumboot_partitions 2 cfg_forward flash_eleven fresh_static
      = some ⟨-EFAULT, fresh_static, [0x20000]⟩ :=
  ⟨by decide,
    C4_too_many_partitions 2 cfg_forward flash_eleven fresh_static 0x20000
      (unit_bytes (encode_table eleven_records)) [0x20000] (by rfl) (by decide)⟩

/-- Claim C5. When the located table declares `c ≤ 10` records and its stored
`crc32` differs from the CRC-32 (initial value 0xFFFFFFFF, final complement) of
the `c * sizeof(record)` bytes from byte 32 on, the call returns -EFAULT with
the memory untouched; and the computed checksum is the same for every buffer
with the same count and the same bytes in that range, so neither the header
bytes nor the bytes after record `c` enter it; that range lies within the ten
records the buffer has room for. -/
theorem C5_checksum_mismatch (fuel : Nat) (cfg : glumboot_config) (master : mtd_info)
    (st : glumboot_static) (a : Nat) (readbuf : Nat → u8) (reads : List Nat)
    (hloc : glumboot_locate fuel cfg master = some (.found a readbuf reads))
    (hcount : partition_count readbuf ≤ GLUMBOOT_MAX_NR_PARTS)
    (hcrc : table_crc32 readbuf ≠
      crc32_le 0xFFFFFFFF (mem_bytes readbuf 32 (partition_count readbuf * sizeof_partition_type))
        ^^^ 0xFFFFFFFF) :
    parse_glumboot_partitions fuel cfg master st = some ⟨-EFAULT, st, reads⟩ ∧
    partition_count readbuf * sizeof_partition_type
      ≤ GLUMBOOT_MAX_NR_PARTS * sizeof_partition_type ∧
    ∀ other : Nat → u8, partition_count other = partition_count readbuf →
      (∀ i, 32 ≤ i → i < 32 + partition_count readbuf * sizeof_partition_type →
        other i = readbuf i) →
      table_checksum other = table_checksum readbuf := by
  refine ⟨?_, Nat.mul_le_mul_right _ hcount, ?_⟩
  · have h : table_checksum readbuf ≠ table_crc32 readbuf := fun e => hcrc e.symm
    rw [parse_of_found fuel cfg master st a readbuf reads hloc, decode_bad_crc readbuf st h]
  · intro other hc hsame
    unfold table_checksum
    rw [hc]
    congr 2
    unfold mem_bytes
    apply List.map_congr_left
    intro i hi
    rw [List.mem_range] at hi
    apply hsame
    · simp [sizeof_partition_table]
    · simp only [sizeof_partition_table]; omega

/-- Claim C5 at a table with two records and a stored checksum of zero. -/
theorem C5_witness :
    parse_glumboot_partitions 2 cfg_forward flash_bad_then_good fresh_static
      = some ⟨-EFAULT, fresh_static, [0x20000]⟩ :=
  (C5_checksum_mismatch 2 cfg_forward flash_bad_then_good fresh_static 0x20000
    (unit_bytes table_bad_crc) [0x20000] (by rfl) (by decide) (by decide)).1

/-- Claim C6. Every failing return (a negative return value) leaves `*pparts`,
`glumboot_partitions` and `glumboot_names` exactly as they were, and the
return value is one of - EIO, -ENOMEM, -ENOENT, -EFAULT. -/
theorem C6_failure_leaves_memory (fuel : Nat) (cfg : glumboot_config) (master : mtd_info)
    (st : glumboot_static) (r : parse_result)
    (h : parse_glumboot_partitions fuel cfg master st = some r) (hneg : r.ret < 0) :
    r.st = st ∧ (r.ret = - EIO ∨ r.ret = -ENOMEM ∨ r.ret = -ENOENT ∨ r.ret = -EFAULT) := by
  cases hloc : glumboot_locate fuel cfg master with
  | none => simp [parse_glumboot_partitions, hloc] at h
  | some l =>
    cases l with
    | fail ret reads =>
      rw [parse_of_fail fuel cfg master st ret reads hloc] at h
      simp only [Option.some.injEq] at h
      subst h
      refine ⟨rfl, ?_⟩
      rcases locate_fail_ret fuel cfg master ret reads hloc with h1 | h1 | h1
      · exact Or.inl h1
      · exact Or.inr (Or.inl h1)
      · exact Or.inr (Or.inr (Or.inl h1))
    | found a readbuf reads =>
      rw [parse_of_found fuel cfg master st a readbuf reads hloc] at h
      simp only [Option.some.injEq] at h
      subst h
      by_cases hc : GLUMBOOT_MAX_NR_PARTS < partition_count readbuf
      · simp [decode_too_many readbuf st hc]
      · by_cases hk : table_checksum readbuf ≠ table_crc32 readbuf
        · simp [decode_bad_crc readbuf st hk]
        · push_neg at hk
          have hc2 : partition_count readbuf ≤ GLUMBOOT_MAX_NR_PARTS := by omega
          simp only [decode_ok readbuf st hc2 hk] at hneg
          omega

/-- Claim C6 at an erased medium: the call fails with -ENOENT and the
memory is as before. -/
theorem C6_witness :
    parse_glumboot_partitions 4 cfg_forward flash_empty fresh_static
        = some ⟨-ENOENT, fresh_static, [0x20000, 0x40000, 0x60000]⟩ ∧
      (⟨-ENOENT, fresh_static, [0x20000, 0x40000, 0x60000]⟩ : parse_result).st = fresh_static :=
  ⟨by rfl, (C6_failure_leaves_memory 4 cfg_forward flash_empty fresh_static
    ⟨-ENOENT, fresh_static, [0x20000, 0x40000, 0x60000]⟩ (by rfl) (by decide)).1⟩

/-- Claim C7. When the first unit that carries the magic tag declares more than
10 records or has a wrong checksum, the call fails with -EFAULT and the memory
untouched; the reads it issued are those of the search up to that unit, the
last one being the read at the located address; and the result is the same on
every medium that answers those reads in the same way, whatever its other
units hold (a valid table further on is never looked at). -/
theorem C7_validation_failure_final (fuel : Nat) (cfg : glumboot_config) (master : mtd_info)
    (st : glumboot_static) (a : Nat) (readbuf : Nat → u8) (reads : List Nat)
    (hloc : glumboot_locate fuel cfg master = some (.found a readbuf reads))
    (hbad : GLUMBOOT_MAX_NR_PARTS < partition_count readbuf
      ∨ table_checksum readbuf ≠ table_crc32 readbuf) :
    parse_glumboot_partitions fuel cfg master st = some ⟨-EFAULT, st, reads⟩ ∧
    reads.getLast? = some a ∧
    ∀ f : Nat → Nat → read_result,
      (∀ y, y ∈ reads → f y (glumboot_alloc master) = master.read y (glumboot_alloc master)) →
      parse_glumboot_partitions fuel cfg (set_read master f) st
        = some ⟨-EFAULT, st, reads⟩ := by
  have hf := locate_found fuel cfg master a readbuf reads hloc
  have hdec : glumboot_decode readbuf st = (-EFAULT, st) := by
    rcases hbad with h | h
    · exact decode_too_many readbuf st h
    · exact decode_bad_crc readbuf st h
  refine ⟨?_, hf.2.2.1, ?_⟩
  · rw [parse_of_found fuel cfg master st a readbuf reads hloc, hdec]
  · intro f hsame
    have hloc2 := locate_set_read fuel cfg master f _ hloc hsame
    rw [parse_of_found fuel cfg (set_read master f) st a readbuf reads hloc2, hdec]

/-- Claim C7 at a medium with a table of wrong checksum at 0x20000 and a
table at 0x40000, inside the search bound, that would decode to two
partitions: the call fails after the single read at 0x20000. -/
theorem C7_witness :
    (glumboot_decode (unit_bytes table_boot_system) fresh_static).1 = 2 ∧
    parse_glumboot_partitions 2 cfg_forward flash_bad_then_good fresh_static
      = some ⟨-EFAULT, fresh_static, [0x20000]⟩ :=
  ⟨by decide,
    (C7_validation_failure_final 2 cfg_forward flash_bad_then_good fresh_static 0x20000
      (unit_bytes table_bad_crc) [0x20000] (by rfl) (Or.inr (by decide))).1⟩

/-- Claim C9 fails as stated: at the example table the code accepts the table
and reports offset 0x100000 and size 0x300000 for record 1, while the bytes at
32 + 28 * 1 + 20 and 32 + 28 * 1 + 24 hold 0 and 0x100000, and the stored
checksum is not the CRC-32 of 2 * 28 bytes from byte 32. -/
theorem C9_counterexample :
    (parse_glumboot_partitions 2 cfg_forward flash_boot_system fresh_static).map
        (fun r => (r.ret, (r.st.glumboot_partitions 1).offset, (r.st.glumboot_partitions 1).size))
      = some (2, 0x100000, 0x300000) ∧
    le32 (unit_bytes table_boot_system) (32 + 28 * 1 + 20) = 0 ∧
    le32 (unit_bytes table_boot_system) (32 + 28 * 1 + 24) = 0x100000 ∧
    table_crc32 (unit_bytes table_boot_system)
      ≠ crc32_le 0xFFFFFFFF (mem_bytes (unit_bytes table_boot_system) 32 (2 * 28)) ^^^ 0xFFFFFFFF := by
  decide

/-- Claim C9 as amended. A record occupies 32 bytes (20-byte name, `u32`
offset, `u32` size, `u32` flags). A located table with at most 10 records is
accepted exactly when the stored checksum is the CRC-32 of
`partition_count * 32` bytes from byte 32 on, and then descriptor `n` has its
offset from byte `32 + 32 * n + 20`, its size from byte `32 + 32 * n + 24` and
the first sixteen bytes of its name slot from byte `32 + 32 * n` on. -/
theorem C9_record_layout (fuel : Nat) (cfg : glumboot_config) (master : mtd_info)
    (st : glumboot_static) (a : Nat) (readbuf : Nat → u8) (reads : List Nat)
    (hloc : glumboot_locate fuel cfg master = some (.found a readbuf reads))
    (hcount : partition_count readbuf ≤ GLUMBOOT_MAX_NR_PARTS) :
    sizeof_partition_type = 32 ∧
    ∃ r, parse_glumboot_partitions fuel cfg master st = some r ∧
      (r.ret = partition_count readbuf ↔
        table_crc32 readbuf =
          crc32_le 0xFFFFFFFF (mem_bytes readbuf 32 (partition_count readbuf * 32))
            ^^^ 0xFFFFFFFF) ∧
      (r.ret = partition_count readbuf → ∀ n, n < partition_count readbuf →
        (r.st.glumboot_partitions n).offset = le32 readbuf (32 + 32 * n + 20) ∧
        (r.st.glumboot_partitions n).size = le32 readbuf (32 + 32 * n + 24) ∧
        ∀ j, j < 16 → r.st.glumboot_names (16 * n + j) = readbuf (32 + 32 * n + j)) := by
  refine ⟨rfl, _, parse_of_found fuel cfg master st a readbuf reads hloc, ?_, ?_⟩
  · by_cases hk : table_checksum readbuf = table_crc32 readbuf
    · simp only [decode_ok readbuf st hcount hk, true_iff]
      exact hk.symm
    · simp only [decode_bad_crc readbuf st hk]
      constructor
      · intro h
        simp only [EFAULT] at h
        omega
      · intro h
        exact absurd h.symm hk
  · intro hret n hn
    by_cases hk : table_checksum readbuf = table_crc32 readbuf
    · simp only [decode_ok readbuf st hcount hk, materialise_partitions, hn, if_true]
      refine ⟨?_, ?_, ?_⟩
      · simp only [partition_offset, partition_at, sizeof_partition_table, sizeof_partition_type]
        congr 1; omega
      · simp only [partition_size, partition_at, sizeof_partition_table, sizeof_partition_type]
        congr 1; omega
      · intro j hj
        rw [materialise_names_head readbuf _ st n j hn hj]
        simp only [partition_at, sizeof_partition_table, sizeof_partition_type]
        congr 1; omega
    · simp only [decode_bad_crc readbuf st hk, EFAULT] at hret
      omega

/-- Claim C9 as amended, at the example table. -/
theorem C9_witness :
    ∃ r, parse_glumboot_partitions 2 cfg_forward flash_boot_system fresh_static = some r ∧
      (r.ret = 2 ↔
        table_crc32 (unit_bytes table_boot_system) =
          crc32_le 0xFFFFFFFF (mem_bytes (unit_bytes table_boot_system) 32 (2 * 32))
            ^^^ 0xFFFFFFFF) ∧
      (r.ret = 2 → ∀ n, n < 2 →
        (r.st.glumboot_partitions n).offset = le32 (unit_bytes table_boot_system) (32 + 32 * n + 20) ∧
        (r.st.glumboot_partitions n).size = le32 (unit_bytes table_boot_system) (32 + 32 * n + 24) ∧
        ∀ j, j < 16 →
          r.st.glumboot_names (16 * n + j) = unit_bytes table_boot_system (32 + 32 * n + j)) :=
  (C9_record_layout 2 cfg_forward flash_boot_system fresh_static 0x20000
    (unit_bytes table_boot_system) [0x20000] (by rfl) (by decide)).2

/-- Claim C10 fails as stated: on an erased 1 MiB medium with 128 KiB erase
units, anchor -3 and search depth 10, the call returns -ENOENT after five
reads, because the sixth address of the backward search is 0. -/
theorem C10_counterexample :
    cfg_backward.offset < 0 ∧ cfg_backward.SEARCH_DEPTH = 10 ∧
    flash_empty.block_isbad = none ∧
    (∀ x len, (flash_empty.read x len).ret = 0 ∧ (flash_empty.read x len).retlen = len ∧
      magic_match (flash_empty.read x len).buf = false) ∧
    (parse_glumboot_partitions 20 cfg_backward flash_empty fresh_static).map
        (fun r => (r.ret, r.reads))
      = some (-ENOENT, [0xA0000, 0x80000, 0x60000, 0x40000, 0x20000]) := by
  refine ⟨by decide, rfl, rfl, ?_, by decide⟩
  intro x len
  refine ⟨rfl, rfl, ?_⟩
  show magic_match (unit_bytes []) = false
  decide

/-- Claim C10 as amended. For a negative anchor, a search depth that is not
negative, a medium without bad blocks on which no read delivers the magic tag,
a write size that is not zero and a successful allocation: let `K` be the first
index at which the address `start - K * erasesize` (modulo 2^32) is 0, the
medium size or the limit, or the search depth if there is none below it. Then
`K` is at most the search depth and the call returns -ENOENT, with the memory
untouched, after reading exactly the `K` units `start - k * erasesize`,
`k < K`, in that order. -/
theorem C10_backward_scan_exhausts (cfg : glumboot_config) (master : mtd_info)
    (st : glumboot_static) (K : Nat)
    (hneg : cfg.offset < 0) (hdepth : 0 ≤ cfg.SEARCH_DEPTH)
    (hw : master.writesize ≠ 0)
    (hv : (cfg.vmalloc (glumboot_alloc master)).isSome = true)
    (hgood : ∀ isbad, master.block_isbad = some isbad → ∀ x, isbad x = false)
    (hnomagic : ∀ x, magic_match (master.read x (glumboot_alloc master)).buf = false)
    (hbefore : ∀ k, k < K → ¬ is_stop cfg master (backward_addr cfg master k))
    (hat : K = cfg.SEARCH_DEPTH.toNat ∨ is_stop cfg master (backward_addr cfg master K)) :
    K ≤ cfg.SEARCH_DEPTH.toNat ∧
    ∀ fuel, K < fuel →
      parse_glumboot_partitions fuel cfg master st
        = some ⟨-ENOENT, st, (List.range K).map (backward_addr cfg master)⟩ := by
  have hlim := backward_addr_depth cfg master hneg hdepth
  have hstop : is_stop cfg master (backward_addr cfg master K) := by
    rcases hat with h | h
    · rw [h, hlim]; exact Or.inr (Or.inr rfl)
    · exact h
  constructor
  · by_contra hcon
    push_neg at hcon
    apply hbefore _ hcon
    rw [hlim]; exact Or.inr (Or.inr rfl)
  · intro fuel hfuel
    obtain ⟨f, rfl⟩ : ∃ f, fuel = f + 1 := ⟨fuel - 1, by omega⟩
    obtain ⟨junk, hjunk⟩ := Option.isSome_iff_exists.mp hv
    obtain ⟨b, hb⟩ := magic_scan_exhausts cfg master (glumboot_alloc master)
      (search_limit cfg master) hnomagic (backward_addr cfg master)
      (backward_addr_succ cfg master hneg) K 0 (f + 1) junk []
      (by intro k hk; simpa [is_stop] using hbefore k hk)
      (by simpa [is_stop] using hstop) hfuel
    simp only [Nat.zero_add, List.nil_append] at hb
    rw [backward_addr_zero cfg master hneg] at hb
    have hloc : glumboot_locate (f + 1) cfg master
        = some (.fail (-ENOENT) ((List.range K).map (backward_addr cfg master))) := by
      unfold glumboot_locate
      rw [align_backward_no_bad f cfg master hneg hgood]
      simp only [hw, if_false, hjunk, hb]
      have : backward_addr cfg master K = 0 ∨ backward_addr cfg master K = master.size
          ∨ backward_addr cfg master K = search_limit cfg master := hstop
      simp only [this, if_true]
    exact parse_of_fail (f + 1) cfg master st _ _ hloc

/-- Claim C10 as amended, at an erased 1 MiB medium with anchor -1 and search
depth 4: exactly four reads. -/
theorem C10_witness :
    parse_glumboot_partitions 5 cfg_backward_four flash_empty fresh_static
      = some ⟨-ENOENT, fresh_static, [0xE0000, 0xC0000, 0xA0000, 0x80000]⟩ :=
  (C10_backward_scan_exhausts cfg_backward_four flash_empty fresh_static 4
    (by decide) (by decide) (by decide) (by rfl)
    (fun isbad h => nomatch h)
    (fun _ => by show magic_match (unit_bytes []) = false; decide)
    (by decide)
    (Or.inl (by decide))).2 5 (by decide)

/-- Claim C11, the code at a failing input: anchor 1 (forward search), erase
size 0x20000, and a bad-block predicate that reports the unit at the anchor
address 0x20000 as bad. The forward loop asks the predicate about `offset`
(the value 1), not about `search_addr`, so nothing is skipped: the first read
is at the anchor address and the table stored there is accepted. -/
theorem C11_forward_probes_bad_anchor :
    cfg_forward.offset = 1 ∧
    flash_bad_anchor.block_isbad.map (fun isbad => isbad (1 * flash_bad_anchor.erasesize))
      = some true ∧
    (parse_glumboot_partitions 2 cfg_forward flash_bad_anchor fresh_static).map
        (fun r => (r.ret, r.reads))
      = some (2, [1 * flash_bad_anchor.erasesize]) := by
  decide

/-- Claim C12. Whenever the call returns, no read was issued at address 0 and
a located table is never at address 0; with anchor 0 the call never succeeds:
it leaves the memory untouched and returns - EIO, -ENOMEM or -ENOENT. -/
theorem C12_address_zero_sentinel (fuel : Nat) (cfg : glumboot_config) (master : mtd_info)
    (st : glumboot_static) (r : parse_result)
    (h : parse_glumboot_partitions fuel cfg master st = some r) :
    0 ∉ r.reads ∧
    (∀ a b rs, glumboot_locate fuel cfg master = some (.found a b rs) → a ≠ 0) ∧
    (cfg.offset = 0 →
      r.st = st ∧ (r.ret = - EIO ∨ r.ret = -ENOMEM ∨ r.ret = -ENOENT)) := by
  refine ⟨?_, ?_, ?_⟩
  · cases hloc : glumboot_locate fuel cfg master with
    | none => simp [parse_glumboot_partitions, hloc] at h
    | some res =>
      have hns := locate_reads_not_stop fuel cfg master res hloc
      have hr : r.reads = locate_reads res := by
        cases res with
        | fail ret reads =>
          rw [parse_of_fail fuel cfg master st ret reads hloc] at h
          simp only [Option.some.injEq] at h
          rw [← h]; rfl
        | found a b reads =>
          rw [parse_of_found fuel cfg master st a b reads hloc] at h
          simp only [Option.some.injEq] at h
          rw [← h]; rfl
      intro hmem
      rw [hr] at hmem
      exact (hns 0 hmem).1 rfl
  · intro a b rs hloc ha
    have hf := locate_found fuel cfg master a b rs hloc
    exact hf.2.2.2.2.2 (Or.inl ha)
  · intro h0
    cases hloc : glumboot_locate fuel cfg master with
    | none => simp [parse_glumboot_partitions, hloc] at h
    | some res =>
      cases res with
      | fail ret reads =>
        rw [parse_of_fail fuel cfg master st ret reads hloc] at h
        simp only [Option.some.injEq] at h
        subst h
        exact ⟨rfl, locate_fail_ret fuel cfg master ret reads hloc⟩
      | found a b reads =>
        exact absurd hloc (locate_anchor_zero fuel cfg master h0 a b reads)

/-- Claim C12 at a medium that holds the example table at address 0, with
anchor 0: the table would decode to two partitions, and the call returns
-ENOENT without any read. -/
theorem C12_witness :
    (glumboot_decode (flash_table_at_zero.read 0 2048).buf fresh_static).1 = 2 ∧
    parse_glumboot_partitions 1 cfg_anchor_zero flash_table_at_zero fresh_static
      = some ⟨-ENOENT, fresh_static, []⟩ ∧
    0 ∉ (⟨-ENOENT, fresh_static, []⟩ : parse_result).reads :=
  ⟨by decide, by rfl,
    (C12_address_zero_sentinel 1 cfg_anchor_zero flash_table_at_zero fresh_static
      ⟨-ENOENT, fresh_static, []⟩ (by rfl)).1⟩

/-- Claim C13. Let `orig` be a table whose stored checksum is right, and let
the located buffer differ from it in exactly one byte, inside the checksummed
record array. Then the computed CRC-32 differs from that of `orig` and the call
fails with -EFAULT, the memory untouched. -/
theorem C13_single_byte_corruption (fuel : Nat) (cfg : glumboot_config) (master : mtd_info)
    (st : glumboot_static) (a : Nat) (readbuf : Nat → u8) (reads : List Nat)
    (orig : Nat → u8) (i : Nat)
    (hloc : glumboot_locate fuel cfg master = some (.found a readbuf reads))
    (hcrc : table_checksum orig = table_crc32 orig)
    (hi : 32 ≤ i ∧ i < 32 + partition_count orig * 32)
    (hdiff : readbuf i ≠ orig i)
    (hsame : ∀ k, k ≠ i → readbuf k = orig k) :
    table_checksum readbuf ≠ table_checksum orig ∧
    parse_glumboot_partitions fuel cfg master st = some ⟨-EFAULT, st, reads⟩ := by
  have hcount : partition_count readbuf = partition_count orig :=
    le32_congr orig readbuf _ (fun k _ _ => hsame k (by omega))
  have hstored : table_crc32 readbuf = table_crc32 orig :=
    le32_congr orig readbuf _ (fun k _ _ => hsame k (by omega))
  have hne : table_checksum readbuf ≠ table_checksum orig := by
    unfold table_checksum
    rw [hcount]
    intro h
    have h2 := Nat.xor_left_injective h
    have key := crc32_le_single_byte orig readbuf sizeof_partition_table (i - 32) 0xFFFFFFFF
      (by decide)
      (by
        have e : sizeof_partition_table + (i - 32) = i := by
          simp only [sizeof_partition_table]; omega
        rw [e]; exact hdiff)
      (by
        intro k hk
        apply hsame
        simp only [sizeof_partition_table]; omega)
      (partition_count orig * sizeof_partition_type)
    exact key.2 (by simp only [sizeof_partition_type]; omega) h2
  refine ⟨hne, ?_⟩
  have hbad : table_checksum readbuf ≠ table_crc32 readbuf := by
    rw [hstored, ← hcrc]; exact hne
  rw [parse_of_found fuel cfg master st a readbuf reads hloc, decode_bad_crc readbuf st hbad]

/-- Claim C13 at the example table with the first name byte changed. -/
theorem C13_witness :
    table_checksum (unit_bytes table_corrupted) ≠ table_checksum (unit_bytes table_boot_system) ∧
    parse_glumboot_partitions 2 cfg_forward flash_corrupted fresh_static
      = some ⟨-EFAULT, fresh_static, [0x20000]⟩ :=
  C13_single_byte_corruption 2 cfg_forward flash_corrupted fresh_static 0x20000
    (unit_bytes table_corrupted) [0x20000] (unit_bytes table_boot_system) 32
    (by rfl) (by decide) (by decide) (by decide)
    (by
      intro k hk
      simp only [unit_bytes, table_corrupted, List.getD_eq_getElem?_getD]
      rw [List.getElem?_set_ne (Ne.symm hk)])

/-- Claim C14 fails as stated: anchor -7 on a 1 MiB medium with 128 KiB erase
units starts at 0x20000; that unit is reported bad, the next address of the
backward search, 0, is not. No probe is issued at that first unit not reported
bad: the call returns -ENOENT without any read. -/
theorem C14_counterexample :
    cfg_backward_seven.offset < 0 ∧
    search_start cfg_backward_seven flash_bad_low = 0x20000 ∧
    reported_bad flash_bad_low 0x20000 = true ∧
    reported_bad flash_bad_low (0x20000 - flash_bad_low.erasesize) = false ∧
    (parse_glumboot_partitions 5 cfg_backward_seven flash_bad_low fresh_static).map
        (fun r => (r.ret, r.reads))
      = some (-ENOENT, []) := by
  decide

/-- Claim C14 as amended. For a negative anchor let `j` be the first index at
which the loop leaves the units `start - k * erasesize` (modulo 2^32): all
units before it are reported bad and are neither address 0 nor the limit. If
unit `j` is reported bad and is address 0 or the limit, the call returns - EIO
without any read. If unit `j` is not reported bad (as is unit 0 on a medium
without predicate), the call returns, and its first read is at that unit unless
the unit is address 0, the medium size or the limit, in which case the call
returns -ENOENT without any read. -/
theorem C14_backward_alignment (cfg : glumboot_config) (master : mtd_info)
    (st : glumboot_static) (j : Nat)
    (hneg : cfg.offset < 0) (hw : master.writesize ≠ 0)
    (hv : (cfg.vmalloc (glumboot_alloc master)).isSome = true)
    (hbefore : ∀ k, k < j → reported_bad master (backward_addr cfg master k) = true
      ∧ backward_addr cfg master k ≠ 0
      ∧ backward_addr cfg master k ≠ search_limit cfg master)
    (fuel : Nat) (hfuel : wrap32 cfg.SEARCH_DEPTH < fuel) :
    (reported_bad master (backward_addr cfg master j) = true →
      (backward_addr cfg master j = 0 ∨ backward_addr cfg master j = search_limit cfg master) →
      parse_glumboot_partitions fuel cfg master st = some ⟨- EIO, st, []⟩) ∧
    (reported_bad master (backward_addr cfg master j) = false →
      ∃ r, parse_glumboot_partitions fuel cfg master st = some r ∧
        (is_stop cfg master (backward_addr cfg master j) →
          r.ret = -ENOENT ∧ r.st = st ∧ r.reads = []) ∧
        (¬ is_stop cfg master (backward_addr cfg master j) →
          r.reads.head? = some (backward_addr cfg master j))) := by
  have hlim := backward_addr_wrap_depth cfg master hneg
  have hj : j ≤ wrap32 cfg.SEARCH_DEPTH := by
    by_contra hcon
    push_neg at hcon
    exact (hbefore _ hcon).2.2 hlim
  obtain ⟨f, hf⟩ : ∃ f, fuel = (f + 1) + j := ⟨fuel - j - 1, by omega⟩
  have hrun := skip_bad_backward_run master (search_limit cfg master) (backward_addr cfg master)
    (backward_addr_step cfg master hneg) j 0 (f + 1)
    (by intro k hk; rw [Nat.zero_add]; exact hbefore k hk)
  rw [Nat.zero_add, backward_addr_zero cfg master hneg, ← hf] at hrun
  have hal : glumboot_align fuel cfg master
      = skip_bad_backward master (search_limit cfg master) (f + 1) (backward_addr cfg master j) := by
    unfold glumboot_align
    simp only [hneg, if_true]
    exact hrun
  constructor
  · intro hbad hstop
    have hal2 : glumboot_align fuel cfg master = some none := by
      rw [hal, skip_bad_backward]
      unfold reported_bad at hbad
      cases hp : master.block_isbad with
      | none => rw [hp] at hbad; simp at hbad
      | some isbad =>
        rw [hp] at hbad
        simp only at hbad ⊢
        rw [if_pos hbad, if_pos hstop]
    apply parse_of_fail
    unfold glumboot_locate
    rw [hal2]
  · intro hgood
    have hal2 : glumboot_align fuel cfg master = some (some (backward_addr cfg master j)) := by
      rw [hal, skip_bad_backward]
      unfold reported_bad at hgood
      cases hp : master.block_isbad with
      | none => rfl
      | some isbad =>
        rw [hp] at hgood
        simp only at hgood ⊢
        rw [if_neg (by simp [hgood])]
    obtain ⟨junk, hjunk⟩ := Option.isSome_iff_exists.mp hv
    obtain ⟨x, b, t, ht, _⟩ := magic_scan_terminates cfg master (glumboot_alloc master)
      (search_limit cfg master) (backward_addr cfg master)
      (backward_addr_succ cfg master hneg) (wrap32 cfg.SEARCH_DEPTH - j) j fuel junk []
      (by rw [Nat.add_sub_cancel' hj]; exact hlim) (by omega)
    simp only [List.nil_append] at ht
    have hloc : ∃ res, glumboot_locate fuel cfg master = some res ∧ locate_reads res = t ∧
        (x = 0 ∨ x = master.size ∨ x = search_limit cfg master → res = .fail (-ENOENT) t) := by
      unfold glumboot_locate
      rw [hal2]
      simp only [hw, if_false, hjunk, ht]
      by_cases hs : x = 0 ∨ x = master.size ∨ x = search_limit cfg master
      · simp only [hs, if_true]
        exact ⟨_, rfl, rfl, fun _ => rfl⟩
      · simp only [hs, if_false]
        exact ⟨_, rfl, rfl, fun h => h.elim⟩
    obtain ⟨res, hres, hreads, hfail⟩ := hloc
    obtain ⟨r, hr, hrr⟩ := parse_of_locate fuel cfg master st res hres
    refine ⟨r, hr, ?_, ?_⟩
    · intro hstop
      have hfu : fuel = (fuel - 1) + 1 := by omega
      rw [hfu, magic_scan] at ht
      have hn : ¬ (backward_addr cfg master j ≠ 0 ∧ backward_addr cfg master j ≠ master.size
          ∧ backward_addr cfg master j ≠ search_limit cfg master) := by
        intro hh
        rcases hstop with h1 | h1 | h1
        · exact hh.1 h1
        · exact hh.2.1 h1
        · exact hh.2.2 h1
      rw [if_neg hn] at ht
      simp only [Option.some.injEq, Prod.mk.injEq] at ht
      have hx : x = 0 ∨ x = master.size ∨ x = search_limit cfg master := by
        rw [← ht.1]; exact hstop
      have hres2 := hfail hx
      rw [hres2] at hres
      rw [parse_of_fail fuel cfg master st _ _ hres] at hr
      simp only [Option.some.injEq] at hr
      rw [← hr, ← ht.2.2]
      exact ⟨rfl, rfl, rfl⟩
    · intro hns
      have hgo : backward_addr cfg master j ≠ 0 ∧ backward_addr cfg master j ≠ master.size
          ∧ backward_addr cfg master j ≠ search_limit cfg master := by
        unfold is_stop at hns
        push_neg at hns
        exact hns
      obtain ⟨t2, ht2⟩ := magic_scan_head cfg master _ _ fuel _ junk [] x b t hgo ht
      rw [hrr, hreads, ht2]
      simp

/-- Claim C14 as amended, at a medium whose unit at the start 0xE0000 is
reported bad: the first read is one unit below, at 0xC0000. -/
theorem C14_witness :
    ∃ r, parse_glumboot_partitions 5 cfg_backward_four flash_bad_top fresh_static = some r ∧
      r.reads.head? = some 0xC0000 :=
  (fun ⟨r, hr, _, h2⟩ => ⟨r, hr, h2 (by decide)⟩)
    ((C14_backward_alignment cfg_backward_four flash_bad_top fresh_static 1
      (by decide) (by decide) (by rfl) (by decide) 5 (by decide)).2 (by decide))

/-- Claim C15. On a medium without bad blocks and without magic tag, with a
write size that is not zero and a successful allocation: for an anchor `A` and
a search depth `D` with `0 < A < D`, a positive erase size and
`D * erasesize` at most the medium size and below 2^32, the call reads exactly
the units `A * erasesize`, ..., `(D - 1) * erasesize` in that order and
returns -ENOENT; with the anchor equal to the search depth it returns -ENOENT
without any read. -/
theorem C15_forward_absolute_bound (cfg : glumboot_config) (master : mtd_info)
    (st : glumboot_static)
    (hw : master.writesize ≠ 0)
    (hv : (cfg.vmalloc (glumboot_alloc master)).isSome = true)
    (hgood : ∀ isbad, master.block_isbad = some isbad → ∀ x, isbad x = false)
    (hnomagic : ∀ x, magic_match (master.read x (glumboot_alloc master)).buf = false) :
    (∀ A D : Nat, cfg.offset = A → cfg.SEARCH_DEPTH = D → 0 < A → A < D →
      0 < master.erasesize → D * master.erasesize ≤ master.size →
      D * master.erasesize < 4294967296 →
      ∀ fuel, D - A < fuel →
        parse_glumboot_partitions fuel cfg master st
          = some ⟨-ENOENT, st, (List.range (D - A)).map (fun k => (A + k) * master.erasesize)⟩) ∧
    (0 ≤ cfg.offset → cfg.offset = cfg.SEARCH_DEPTH → ∀ fuel, 0 < fuel →
      parse_glumboot_partitions fuel cfg master st = some ⟨-ENOENT, st, []⟩) := by
  obtain ⟨junk, hjunk⟩ := Option.isSome_iff_exists.mp hv
  constructor
  · intro A D hA hD hApos hAD he hsize hno fuel hfuel
    have hpos : ¬ cfg.offset < 0 := by rw [hA]; omega
    obtain ⟨f, rfl⟩ : ∃ f, fuel = f + 1 := ⟨fuel - 1, by omega⟩
    have hexact : ∀ k, k ≤ D - A → forward_addr cfg master k = (A + k) * master.erasesize := by
      intro k hk
      apply forward_addr_exact cfg master A k hA
      have : (A + k) * master.erasesize ≤ D * master.erasesize :=
        Nat.mul_le_mul_right _ (by omega)
      omega
    have hlimit : search_limit cfg master = D * master.erasesize := by
      unfold search_limit
      rw [if_neg hpos, hD]
      have e1 : ((D : Int) * (master.erasesize : Int)) = ((D * master.erasesize : Nat) : Int) := by
        push_cast; rfl
      rw [e1, wrap32_of_lt _ hno]
    obtain ⟨b, hb⟩ := magic_scan_exhausts cfg master (glumboot_alloc master)
      (search_limit cfg master) hnomagic (forward_addr cfg master)
      (forward_addr_succ cfg master hpos) (D - A) 0 (f + 1) junk []
      (by
        intro k hk
        rw [Nat.zero_add, hexact k (by omega), hlimit]
        have hlt : (A + k) * master.erasesize < D * master.erasesize :=
          Nat.mul_lt_mul_of_pos_right (by omega) he
        have hp : 0 < (A + k) * master.erasesize := Nat.mul_pos (by omega) he
        omega)
      (by
        rw [Nat.zero_add, hexact _ (le_refl _), hlimit]
        have : A + (D - A) = D := by omega
        rw [this]
        exact Or.inr (Or.inr rfl))
      hfuel
    simp only [Nat.zero_add, List.nil_append] at hb
    rw [forward_addr_zero cfg master hpos] at hb
    have hmap : (List.range (D - A)).map (fun k => forward_addr cfg master k)
        = (List.range (D - A)).map (fun k => (A + k) * master.erasesize) := by
      apply List.map_congr_left
      intro k hk
      rw [List.mem_range] at hk
      exact hexact k (by omega)
    rw [hmap] at hb
    apply parse_of_fail
    unfold glumboot_locate
    rw [align_forward_no_bad f cfg master hpos hgood]
    simp only [hw, if_false, hjunk, hb]
    have hstop : forward_addr cfg master (D - A) = 0 ∨ forward_addr cfg master (D - A) = master.size
        ∨ forward_addr cfg master (D - A) = search_limit cfg master := by
      rw [hexact _ (le_refl _), hlimit]
      have : A + (D - A) = D := by omega
      rw [this]
      exact Or.inr (Or.inr rfl)
    simp only [hstop, if_true]
  · intro hnn heq fuel hfuel
    have hpos : ¬ cfg.offset < 0 := by omega
    obtain ⟨f, rfl⟩ : ∃ f, fuel = f + 1 := ⟨fuel - 1, by omega⟩
    have hsl : search_start cfg master = search_limit cfg master := by
      unfold search_limit search_start
      rw [if_neg hpos, if_neg hpos, heq]
    apply parse_of_fail
    unfold glumboot_locate
    rw [align_forward_no_bad f cfg master hpos hgood]
    simp only [hw, if_false, hjunk]
    rw [magic_scan]
    simp [hsl]

/-- Claim C15 at an erased medium with 128 KiB erase units: anchor 2 and depth
4 read 0x40000 and 0x60000; anchor 4 and depth 4 read nothing. -/
theorem C15_witness :
    parse_glumboot_partitions 3 cfg_forward_two flash_empty fresh_static
      = some ⟨-ENOENT, fresh_static, [0x40000, 0x60000]⟩ ∧
    parse_glumboot_partitions 1 cfg_forward_four flash_empty fresh_static
      = some ⟨-ENOENT, fresh_static, []⟩ :=
  ⟨(C15_forward_absolute_bound cfg_forward_two flash_empty fresh_static (by decide) (by rfl)
      (fun isbad h => nomatch h)
      (fun _ => by show magic_match (unit_bytes []) = false; decide)).1
      2 4 rfl rfl (by decide) (by decide) (by decide) (by decide) (by decide) 3 (by decide),
    (C15_forward_absolute_bound cfg_forward_four flash_empty fresh_static (by decide) (by rfl)
      (fun isbad h => nomatch h)
      (fun _ => by show magic_match (unit_bytes []) = false; decide)).2
      (by decide) rfl 1 (by decide)⟩

/-- Claim C16 fails as stated: with a write unit of one byte the call
allocates and requests 353 bytes, although 352 is a multiple of the write unit
and is the capacity needed. -/
theorem C16_counterexample :
    flash_byte_writes.writesize = 1 ∧
    glumboot_alloc flash_byte_writes = 353 ∧
    sizeof_partition_table + GLUMBOOT_MAX_NR_PARTS * sizeof_partition_type = 352 ∧
    flash_byte_writes.writesize ∣ 352 := by
  decide

/-- Claim C16 as amended. For a write unit of at least 1 the buffer size is
the smallest multiple of the write unit that is strictly greater than
`sizeof(header) + 10 * sizeof(record)`, and every read is issued with that
length: the result of the call only depends on what the medium delivers for
reads of that length. -/
theorem C16_alloc_rounding (master : mtd_info) (hw : 1 ≤ master.writesize) :
    master.writesize ∣ glumboot_alloc master ∧
    sizeof_partition_table + GLUMBOOT_MAX_NR_PARTS * sizeof_partition_type
      < glumboot_alloc master ∧
    (∀ m, master.writesize ∣ m →
      sizeof_partition_table + GLUMBOOT_MAX_NR_PARTS * sizeof_partition_type < m →
      glumboot_alloc master ≤ m) ∧
    ∀ (fuel : Nat) (cfg : glumboot_config) (st : glumboot_static)
      (f : Nat → Nat → read_result) (r : parse_result),
      (∀ x, f x (glumboot_alloc master) = master.read x (glumboot_alloc master)) →
      parse_glumboot_partitions fuel cfg master st = some r →
      parse_glumboot_partitions fuel cfg (set_read master f) st = some r := by
  refine ⟨?_, ?_, ?_, ?_⟩
  · exact Dvd.intro_left _ rfl
  · unfold glumboot_alloc
    have := Nat.lt_mul_div_succ
      (sizeof_partition_table + GLUMBOOT_MAX_NR_PARTS * sizeof_partition_type)
      (show 0 < master.writesize by omega)
    rw [Nat.mul_comm master.writesize] at this
    exact this
  · intro m hdvd hlt
    obtain ⟨q, rfl⟩ := hdvd
    unfold glumboot_alloc
    have hq : (sizeof_partition_table + GLUMBOOT_MAX_NR_PARTS * sizeof_partition_type)
        / master.writesize < q := by
      apply Nat.div_lt_of_lt_mul
      exact hlt
    rw [Nat.mul_comm master.writesize q]
    exact Nat.mul_le_mul_right _ hq
  · intro fuel cfg st f r hsame h
    exact parse_set_read fuel cfg master st f r h (fun y _ => hsame y)

/-- Claim C16 as amended, at a write unit of one byte. -/
theorem C16_witness :
    glumboot_alloc flash_byte_writes = 353 ∧
    flash_byte_writes.writesize ∣ glumboot_alloc flash_byte_writes ∧
    352 < glumboot_alloc flash_byte_writes :=
  ⟨by decide, (C16_alloc_rounding flash_byte_writes (by decide)).1,
    (C16_alloc_rounding flash_byte_writes (by decide)).2.1⟩

/-- Claim C17, the code at a failing input: a table with the single record
("AAAAAAAAAAAAAAAAAAA", 0x0, 0x100000), a name of nineteen bytes. Parsed with
zeroed static buffers the name comes back as written; parsed after an earlier
parse of the example table it comes back with a twentieth byte "t", left in
`glumboot_names[19]` by the name "system". -/
theorem C17_stale_byte_shows :
    (parse_glumboot_partitions 2 cfg_forward flash_nineteen fresh_static).map
        (fun r => (r.ret, descriptors r.st 1))
      = some (1, [((List.replicate 19 0x41 : List u8), 0, 0x100000)]) ∧
    (parse_glumboot_partitions 2 cfg_forward flash_nineteen static_after_boot_system).map
        (fun r => (r.ret, descriptors r.st 1))
      = some (1, [((List.replicate 19 0x41 ++ [0x74] : List u8), 0, 0x100000)]) := by
  constructor <;> decide

/-- Claim C18. For an accepted table and a record `n` whose name field has a
zero byte among its first 16 bytes, the string at `glumboot_names + 16 * n`
after the whole copy loop is the name of record `n` up to its first zero byte,
whatever the other records and the earlier contents of the static buffers are. -/
theorem C18_short_names_intact (fuel : Nat) (cfg : glumboot_config) (master : mtd_info)
    (st : glumboot_static) (a : Nat) (readbuf : Nat → u8) (reads : List Nat)
    (hloc : glumboot_locate fuel cfg master = some (.found a readbuf reads))
    (hcount : partition_count readbuf ≤ GLUMBOOT_MAX_NR_PARTS)
    (hcrc : table_checksum readbuf = table_crc32 readbuf)
    (n : Nat) (hn : n < partition_count readbuf)
    (hz : ∃ j, j < 16 ∧ readbuf (partition_at n + j) = 0) :
    ∃ r, parse_glumboot_partitions fuel cfg master st = some r ∧
      (r.st.glumboot_partitions n).name = some (16 * n) ∧
      descriptor_name r.st n = record_name readbuf n := by
  refine ⟨_, parse_of_found fuel cfg master st a readbuf reads hloc, ?_, ?_⟩
  · simp [decode_ok readbuf st hcount hcrc, materialise_partitions, hn]
  · obtain ⟨j, hj, hzero⟩ := hz
    have hname : ((glumboot_decode readbuf st).2.glumboot_partitions n).name = some (16 * n) := by
      simp [decode_ok readbuf st hcount hcrc, materialise_partitions, hn]
    simp only [descriptor_name, hname, record_name]
    simp only [GLUMBOOT_MAX_NR_PARTS] at hcount
    apply cstr_agree _ _ j
    · intro k hk
      simp only [decode_ok readbuf st hcount hcrc]
      exact materialise_names_head readbuf _ st n k hn (by omega)
    · exact hzero
    · simp only [sizeof_glumboot_names, GLUMBOOT_MAX_NR_PARTS]; omega
    · omega

/-- Claim C18 at record 1 ("system") of the example table. -/
theorem C18_witness :
    ∃ r, parse_glumboot_partitions 2 cfg_forward flash_boot_system fresh_static = some r ∧
      (r.st.glumboot_partitions 1).name = some (16 * 1) ∧
      descriptor_name r.st 1 = record_name (unit_bytes table_boot_system) 1 :=
  C18_short_names_intact 2 cfg_forward flash_boot_system fresh_static 0x20000
    (unit_bytes table_boot_system) [0x20000] (by rfl) (by decide) (by decide) 1 (by decide)
    ⟨6, by decide, by decide⟩

/-- Claim C19. For every configuration and medium with a write size of at
least 1 the call returns for every fuel above 2^32, so both loops end; and for
a negative anchor with a search depth that is not negative it issues at most
`SEARCH_DEPTH` reads. -/
theorem C19_terminates (cfg : glumboot_config) (master : mtd_info) (st : glumboot_static)
    (hw : 1 ≤ master.writesize) (fuel : Nat) (hfuel : 4294967296 < fuel) :
    ∃ r, parse_glumboot_partitions fuel cfg master st = some r ∧
      (cfg.offset < 0 → 0 ≤ cfg.SEARCH_DEPTH → r.reads.length ≤ cfg.SEARCH_DEPTH.toNat) := by
  have hw0 : master.writesize ≠ 0 := by omega
  by_cases hneg : cfg.offset < 0
  · have hlim := backward_addr_wrap_depth cfg master hneg
    have hK := wrap32_lt cfg.SEARCH_DEPTH
    obtain ⟨o, ho, hcase⟩ := skip_bad_backward_terminates master (search_limit cfg master)
      (backward_addr cfg master) (backward_addr_step cfg master hneg)
      (wrap32 cfg.SEARCH_DEPTH) 0 fuel (by rw [Nat.zero_add]; exact hlim) (by omega)
    rw [backward_addr_zero cfg master hneg] at ho
    have hal : glumboot_align fuel cfg master = some o := by
      unfold glumboot_align
      simp only [hneg, if_true]
      exact ho
    obtain ⟨res, hres, hlen⟩ := locate_of_scan fuel cfg master (wrap32 cfg.SEARCH_DEPTH) o hal hw0
      (by
        intro sa hsa bf
        rcases hcase with h1 | ⟨i, hi, h1⟩
        · rw [h1] at hsa; simp at hsa
        · rw [h1] at hsa
          simp only [Option.some.injEq, Nat.zero_add] at hsa
          obtain ⟨x, b, t, ht, hlen⟩ := magic_scan_terminates cfg master (glumboot_alloc master)
            (search_limit cfg master) (backward_addr cfg master)
            (backward_addr_succ cfg master hneg) (wrap32 cfg.SEARCH_DEPTH - i) i fuel bf []
            (by rw [Nat.add_sub_cancel' hi]; exact hlim) (by omega)
          rw [hsa] at ht
          exact ⟨x, b, t, by simpa using ht, by omega⟩)
    obtain ⟨r, hr, hreads⟩ := parse_of_locate fuel cfg master st res hres
    refine ⟨r, hr, ?_⟩
    intro _ hd
    rw [hreads]
    have : wrap32 cfg.SEARCH_DEPTH ≤ cfg.SEARCH_DEPTH.toNat := by
      unfold wrap32
      omega
    omega
  · have hlim := forward_addr_limit cfg master hneg
    have hK := wrap32_lt (cfg.SEARCH_DEPTH - cfg.offset - 1)
    obtain ⟨o, ho⟩ := skip_bad_forward_terminates cfg master (search_limit cfg master)
      (forward_addr cfg master) (forward_addr_step cfg master)
      (wrap32 (cfg.SEARCH_DEPTH - cfg.offset - 1)) 0 fuel
      (by rw [Nat.zero_add]; exact hlim) (by omega)
    rw [forward_addr_zero cfg master hneg] at ho
    have hal : glumboot_align fuel cfg master = some o := by
      unfold glumboot_align
      simp only [hneg, if_false]
      exact ho
    obtain ⟨res, hres, _⟩ := locate_of_scan fuel cfg master
      (wrap32 (cfg.SEARCH_DEPTH - cfg.offset - 1) + 1) o hal hw0
      (by
        intro sa hsa bf
        rw [hsa] at ho
        have hsa2 := skip_bad_forward_some cfg master _ _ _ _ ho
        obtain ⟨x, b, t, ht, hlen⟩ := magic_scan_terminates cfg master (glumboot_alloc master)
          (search_limit cfg master) (forward_addr cfg master)
          (forward_addr_succ cfg master hneg)
          (wrap32 (cfg.SEARCH_DEPTH - cfg.offset - 1) + 1) 0 fuel bf []
          (by rw [Nat.zero_add]; exact hlim) (by omega)
        rw [forward_addr_zero cfg master hneg, ← hsa2] at ht
        exact ⟨x, b, t, by simpa using ht, hlen⟩)
    obtain ⟨r, hr, _⟩ := parse_of_locate fuel cfg master st res hres
    exact ⟨r, hr, fun h => absurd h hneg⟩

/-- Claim C19 at a medium with an erase size of zero. -/
theorem C19_witness :
    ∃ r, parse_glumboot_partitions 4294967297 cfg_backward_four flash_zero_erase fresh_static
        = some r ∧
      (cfg_backward_four.offset < 0 → 0 ≤ cfg_backward_four.SEARCH_DEPTH →
        r.reads.length ≤ cfg_backward_four.SEARCH_DEPTH.toNat) :=
  C19_terminates cfg_backward_four flash_zero_erase fresh_static (by decide) 4294967297
    (by decide)

/-- Claim C20. For a table with at most 10 records: no byte of
`glumboot_names` above index `16 * 9 + 20 = 164` (which is below 200) and no
entry of `glumboot_partitions` from index 10 on is changed by the decoding
part, for every earlier content; its result only depends on the first
`sizeof(header) + 10 * sizeof(record)` bytes of the read buffer; and that
number is below the allocated size when the write size is at least 1. -/
theorem C20_accesses_in_bounds (readbuf : Nat → u8) (st : glumboot_static) (master : mtd_info)
    (hc : partition_count readbuf ≤ GLUMBOOT_MAX_NR_PARTS) (hw : 1 ≤ master.writesize) :
    16 * 9 + 20 < sizeof_glumboot_names ∧
    (∀ i, 16 * 9 + 20 < i →
      (glumboot_decode readbuf st).2.glumboot_names i = st.glumboot_names i) ∧
    (∀ n, GLUMBOOT_MAX_NR_PARTS ≤ n →
      (glumboot_decode readbuf st).2.glumboot_partitions n = st.glumboot_partitions n) ∧
    (∀ other : Nat → u8,
      (∀ i, i < sizeof_partition_table + GLUMBOOT_MAX_NR_PARTS * sizeof_partition_type →
        other i = readbuf i) →
      glumboot_decode other st = glumboot_decode readbuf st) ∧
    sizeof_partition_table + GLUMBOOT_MAX_NR_PARTS * sizeof_partition_type
      < glumboot_alloc master := by
  refine ⟨by decide, ?_, ?_, ?_, ?_⟩
  · intro i hi
    by_cases hk : table_checksum readbuf = table_crc32 readbuf
    · simp only [decode_ok readbuf st hc hk]
      exact materialise_names_frame readbuf st _ hc i hi
    · simp only [decode_bad_crc readbuf st hk]
  · intro n hn
    by_cases hk : table_checksum readbuf = table_crc32 readbuf
    · simp only [decode_ok readbuf st hc hk, materialise_partitions]
      have : ¬ n < partition_count readbuf := by omega
      simp only [this, if_false]
    · simp only [decode_bad_crc readbuf st hk]
  · intro other h
    exact decode_congr readbuf other st h
  · unfold glumboot_alloc
    have := Nat.lt_mul_div_succ
      (sizeof_partition_table + GLUMBOOT_MAX_NR_PARTS * sizeof_partition_type)
      (show 0 < master.writesize by omega)
    rw [Nat.mul_comm master.writesize] at this
    exact this

/-- Claim C20 at the example table. -/
theorem C20_witness :
    (∀ i, 16 * 9 + 20 < i →
      (glumboot_decode (unit_bytes table_boot_system) fresh_static).2.glumboot_names i
        = fresh_static.glumboot_names i) ∧
    352 < glumboot_alloc flash_boot_system :=
  ⟨(C20_accesses_in_bounds (unit_bytes table_boot_system) fresh_static flash_boot_system
      (by decide) (by decide)).2.1,
    (C20_accesses_in_bounds (unit_bytes table_boot_system) fresh_static flash_boot_system
      (by decide) (by decide)).2.2.2.2⟩

end Glumboot
